import Mathlib

/-!
Verification of the AdStash creative-asset manager against its specification.

The development shallowly embeds the repository's database schema
(src/db/schema), the REST route handlers (src/app/api), the storage-path
helper (src/lib/supabase/storage.ts) and the browser-extension content
script (content.ts) as pure Lean functions over an explicit database
state.  External collaborators (the Supabase auth/storage clients, the
JS URL parser, Math.random, Date.now, SHA-256) are passed in as explicit
parameters, mirroring the spec's out-of-scope list.
-/

namespace AdStash

/-! ## String helpers (executable, kernel-friendly) -/

/-- Boolean list-level check that the first list is an initial segment of
the second one. -/
def charsPfx : List Char → List Char → Bool
  | [], _ => true
  | _ :: _, [] => false
  | c :: cs, d :: ds => decide (c = d) && charsPfx cs ds

/-- Boolean check that the first list occurs contiguously inside the
second one. -/
def charsHasInfix (needle : List Char) : List Char → Bool
  | [] => charsPfx needle []
  | c :: cs => charsPfx needle (c :: cs) || charsHasInfix needle cs

/-- String-level startsWith, evaluated on the underlying character lists. -/
def startsWithStr (s p : String) : Bool := charsPfx p.data s.data

/-- String-level substring containment. -/
def containsStr (s sub : String) : Bool := charsHasInfix sub.data s.data

/-- ASCII lower-casing of a single character. -/
def lowerChar (c : Char) : Char :=
  if 'A' ≤ c ∧ c ≤ 'Z' then Char.ofNat (c.toNat + 32) else c

/-- ASCII lower-casing of a string. -/
def toLowerStr (s : String) : String := ⟨s.data.map lowerChar⟩

/-- Case-insensitive substring containment, the model of SQL
ILIKE with a pattern of the shape percent-text-percent. -/
def containsCI (s sub : String) : Bool := containsStr (toLowerStr s) (toLowerStr sub)

/-- Case-insensitive startsWith, the model of SQL ILIKE with a pattern of
the shape text-percent. -/
def startsWithCI (s p : String) : Bool := startsWithStr (toLowerStr s) (toLowerStr p)

/-- Drop the first n characters of a string (the model of
JavaScript's slice on short ASCII strings). -/
def sliceFrom (s : String) (n : Nat) : String := ⟨s.data.drop n⟩

/-- JavaScript truthiness for an optional string value:
expr-or-null collapses the empty string and an absent value to null. -/
def optTruthy : Option String → Option String
  | some s => if s = "" then none else some s
  | none => none

/-- JavaScript truthiness for an optional number value:
expr-or-null collapses 0 and an absent value to null. -/
def intTruthy : Option Int → Option Int
  | some n => if n = 0 then none else some n
  | none => none

/-- JavaScript string-or on two strings: the left operand unless it is
empty. -/
def jsOr (a b : String) : String := if a = "" then b else a

/-! ## Database rows (src/db/schema) -/

/-- The asset_status pg enum. -/
inductive AssetStatus
  | draft
  | uploading
  | ready
  | failed
  deriving DecidableEq, Repr

/-- The capture_method pg enum. -/
inductive CaptureMethod
  | webUpload
  | extensionCapture
  deriving DecidableEq, Repr

/-- A row of the assets table (src/db/schema/assets.ts).  Timestamps are
integers; the unused jsonb column extra is not modelled. -/
structure AssetRow where
  id : String
  ownerId : String
  createdAt : Int
  updatedAt : Int
  status : AssetStatus
  captureMethod : CaptureMethod
  sourcePlatform : String
  captureUrl : Option String
  mediaUrl : Option String
  originalFilename : String
  mimeType : String
  sizeBytes : Option Int
  width : Option Int
  height : Option Int
  durationSeconds : Option String
  storageBucket : String
  storagePath : String
  previewBucket : Option String
  previewPath : Option String
  sha256 : Option String
  notes : Option String
  deriving DecidableEq, Repr

/-- A row of the asset_tags junction table (no independent identity). -/
structure AssetTagRow where
  assetId : String
  tagId : String
  deriving DecidableEq, Repr

/-- A row of the tags table (src/db/schema/tags.ts). -/
structure TagRow where
  id : String
  ownerId : String
  name : String
  color : String
  createdAt : Int
  deriving DecidableEq, Repr

/-- A row of the personal_access_tokens table
(src/db/schema/personal-access-tokens.ts); tokenPfx models the
token_prefix display column. -/
structure TokenRow where
  id : String
  ownerId : String
  name : String
  tokenHash : String
  tokenPfx : String
  createdAt : Int
  lastUsedAt : Option Int
  revokedAt : Option Int
  expiresAt : Option Int
  deriving DecidableEq, Repr

/-- The database state: the four tables the API routes touch. -/
structure DB where
  assets : List AssetRow
  assetTags : List AssetTagRow
  tags : List TagRow
  tokens : List TokenRow
  deriving DecidableEq, Repr

/-! ## Generic query combinators (the model of the drizzle calls) -/

/-- SELECT ... WHERE P. -/
def selWhere {α : Type} (P : α → Prop) [DecidablePred P] (l : List α) : List α :=
  l.filter (fun a => decide (P a))

/-- UPDATE ... SET (via f) WHERE P. -/
def updWhere {α : Type} (P : α → Prop) [DecidablePred P] (f : α → α) (l : List α) : List α :=
  l.map (fun a => if P a then f a else a)

/-- DELETE ... WHERE P. -/
def delWhere {α : Type} (P : α → Prop) [DecidablePred P] (l : List α) : List α :=
  l.filter (fun a => decide (¬ P a))

/-! ## Storage helpers (src/lib/supabase/storage.ts) -/

def ASSETS_BUCKET : String := "assets"

def PREVIEWS_BUCKET : String := "previews"

/-- Filename sanitization from generateAssetPath: every character outside
letters, digits, dot and hyphen becomes an underscore. -/
def allowedPathChar (c : Char) : Bool :=
  decide (('a' ≤ c ∧ c ≤ 'z') ∨ ('A' ≤ c ∧ c ≤ 'Z') ∨ ('0' ≤ c ∧ c ≤ '9') ∨ c = '.' ∨ c = '-')

/-- The regex replace in generateAssetPath. -/
def sanitizeFilename (filename : String) : String :=
  ⟨filename.data.map (fun c => if allowedPathChar c then c else '_')⟩

/-- generateAssetPath from src/lib/supabase/storage.ts.  Date.now() and
the Math.random()-derived suffix are inputs (ts, randomSuffix); the
optional path segment is pfx. -/
def generateAssetPath (userId filename : String) (pfx : Option String)
    (ts : Int) (randomSuffix : String) : String :=
  let pfxStr := match pfx with
    | some p => p ++ "/"
    | none => ""
  pfxStr ++ userId ++ "/" ++ toString ts ++ "-" ++ randomSuffix ++ "-" ++ sanitizeFilename filename

/-- The data record returned by the storage provider for a signed upload
URL (an external collaborator; values are opaque). -/
structure SignedUpload where
  signedUrl : String
  token : String
  path : String
  deriving DecidableEq, Repr

/-! ## Source platform detection (src/db/schema/sources.ts) -/

/-- The built-in DEFAULT_SOURCES catalog: key and domain patterns (labels
are display-only and omitted here). -/
def DEFAULT_SOURCES : List (String × List String) :=
  [("facebook", ["facebook.com", "fb.com", "fb.me"]),
   ("instagram", ["instagram.com", "instagr.am"]),
   ("tiktok", ["tiktok.com", "vm.tiktok.com"]),
   ("youtube", ["youtube.com", "youtu.be"]),
   ("twitter", ["twitter.com", "x.com", "t.co"]),
   ("linkedin", ["linkedin.com"]),
   ("pinterest", ["pinterest.com", "pin.it"]),
   ("snapchat", ["snapchat.com"]),
   ("other", [])]

/-- detectSourceFromUrl.  The JS URL constructor is external; hostnameOf
returns the parsed hostname, or none when the constructor throws. -/
def detectSourceFromUrl (hostnameOf : String → Option String) (url : String) : String :=
  match hostnameOf url with
  | none => "other"
  | some host =>
    let hostname := toLowerStr host
    match DEFAULT_SOURCES.find? (fun s => s.2.any (fun pat => containsStr hostname pat)) with
    | some s => s.1
    | none => "other"

/-! ## Asset listing (GET /api/assets, src/unnamed/part_006) -/

/-- The parsed query parameters of the listing route.  Date strings are
parsed by the external JS Date constructor, so the two date bounds appear
here already as optional timestamps. -/
structure QueryParams where
  page : Nat
  limit : Nat
  search : String
  sourcePlatform : String
  mimeTypeFilter : String
  tagIds : List String
  fromDate : Option Int
  toDate : Option Int

/-- buildWhereConditions as a single predicate: the conjunction of the
condition list built by the route. -/
def buildWhereConditions (userId : String) (params : QueryParams) (a : AssetRow) : Bool :=
  decide (a.ownerId = userId) &&
  decide (a.status = AssetStatus.ready) &&
  (if params.search = "" then true
   else containsCI a.originalFilename params.search ||
     (match a.notes with
      | some n => containsCI n params.search
      | none => false)) &&
  (if params.sourcePlatform = "" then true
   else decide (a.sourcePlatform = params.sourcePlatform)) &&
  (if params.mimeTypeFilter = "image" then startsWithCI a.mimeType ("image/")
   else if params.mimeTypeFilter = "video" then startsWithCI a.mimeType ("video/")
   else true) &&
  (match params.fromDate with
   | some d => decide (d ≤ a.createdAt)
   | none => true) &&
  (match params.toDate with
   | some d => decide (a.createdAt ≤ d)
   | none => true)

/-- The distinct requested tag ids linked to a given asset: the model of
the grouped subquery's count(distinct tag_id) per asset. -/
def matchedTagIds (links : List AssetTagRow) (tagIds : List String) (assetId : String) : List String :=
  ((selWhere (fun r => r.assetId = assetId ∧ r.tagId ∈ tagIds) links).map (fun r => r.tagId)).dedup

/-- The rows produced by the listing query: base conditions, the optional
tag-intersection subquery, newest-first ordering, offset and limit. -/
def listAssetRows (userId : String) (params : QueryParams) (db : DB) : List AssetRow :=
  let base := db.assets.filter (buildWhereConditions userId params)
  let filtered :=
    if params.tagIds.isEmpty then base
    else base.filter
      (fun a => decide ((matchedTagIds db.assetTags params.tagIds a.id).length = params.tagIds.length))
  let sorted := List.insertionSort (fun a b => b.createdAt ≤ a.createdAt) filtered
  (sorted.drop ((params.page - 1) * params.limit)).take params.limit

/-- getAssetsWithTags restricted to one asset id: the inner join of
asset_tags with tags on tag id, filtered by the asset id.  The join
carries no owner condition. -/
def listAssetTags (db : DB) (assetId : String) : List TagRow :=
  (selWhere (fun r => r.assetId = assetId) db.assetTags).flatMap
    (fun r => selWhere (fun t => t.id = r.tagId) db.tags)

/-- GET /api/assets: each returned asset together with its joined tag
rows (signed preview URLs are external and omitted). -/
def assetsGET (userId : String) (params : QueryParams) (db : DB) : List (AssetRow × List TagRow) :=
  (listAssetRows userId params db).map (fun a => (a, listAssetTags db a.id))

/-! ## Single-asset routes (src/app/api/assets/[id]/route.ts) -/

/-- GET /api/assets/:id: the owner-scoped select plus the tag join;
none models the 404 branch. -/
def assetIdGET (userId id : String) (db : DB) : Option (AssetRow × List TagRow) :=
  match (selWhere (fun a => a.id = id ∧ a.ownerId = userId) db.assets).head? with
  | none => none
  | some asset => some (asset, listAssetTags db id)

/-- The SET clause of PATCH /api/assets/:id: updated_at always, notes
when the JSON field is present, source platform when truthy. -/
def patchSet (notes : Option (Option String)) (sourcePlatform : Option String)
    (now : Int) (a : AssetRow) : AssetRow :=
  { a with
    updatedAt := now
    notes := match notes with
      | some v => v
      | none => a.notes
    sourcePlatform := match optTruthy sourcePlatform with
      | some s => s
      | none => a.sourcePlatform }

/-- PATCH /api/assets/:id.  notes is present-with-value when the JSON
field is not undefined (the inner option is the nullable column value);
sourcePlatform is applied only when truthy; a tagIds array replaces the
asset's tag links.  Returns the new database and the updated row (none
models the 404 branch). -/
def assetIdPATCH (userId id : String) (notes : Option (Option String))
    (sourcePlatform : Option String) (tagIds : Option (List String))
    (now : Int) (db : DB) : DB × Option AssetRow :=
  let upd := patchSet notes sourcePlatform now
  let matched := selWhere (fun a => a.id = id ∧ a.ownerId = userId) db.assets
  match (matched.map upd).head? with
  | none => (db, none)
  | some updatedAsset =>
    let db1 := { db with assets := updWhere (fun a => a.id = id ∧ a.ownerId = userId) upd db.assets }
    let db2 := match tagIds with
      | none => db1
      | some l =>
        { db1 with assetTags :=
            delWhere (fun r => r.assetId = id) db1.assetTags ++
              l.map (fun tagId => { assetId := id, tagId := tagId }) }
    (db2, some updatedAsset)

/-- DELETE /api/assets/:id.  storageOk is the external storage client's
success oracle; its outcome is recorded with each attempted deletion and
otherwise swallowed.  Returns the new database, the attempted storage
deletions (bucket, path, outcome) and the route's success flag. -/
def assetIdDELETE (userId id : String) (storageOk : String → String → Bool)
    (db : DB) : DB × List (String × String × Bool) × Bool :=
  match (selWhere (fun a => a.id = id ∧ a.ownerId = userId) db.assets).head? with
  | none => (db, [], false)
  | some asset =>
    let attempts :=
      [(asset.storageBucket, asset.storagePath, storageOk asset.storageBucket asset.storagePath)] ++
      (match asset.previewBucket, asset.previewPath with
       | some pb, some pp => [(pb, pp, storageOk pb pp)]
       | _, _ => [])
    let db1 := { db with
      assetTags := delWhere (fun r => r.assetId = id) db.assetTags
      assets := delWhere (fun a => a.id = id) db.assets }
    (db1, attempts, true)

/-! ## Upload handshake (init-upload and finalize-upload routes) -/

/-- The JSON body of POST /api/assets/init-upload. -/
structure InitUploadRequest where
  filename : String
  mimeType : String
  sizeBytes : Option Int
  sourcePlatform : Option String
  captureUrl : Option String

/-- The JSON response of POST /api/assets/init-upload. -/
structure InitResp where
  assetId : String
  assetUpload : SignedUpload
  previewUpload : SignedUpload
  deriving DecidableEq, Repr

/-- The asset row created by POST /api/assets/init-upload. -/
def initRow (userId : String) (body : InitUploadRequest) (newId : String)
    (now ts : Int) (r1 r2 : String) (hostnameOf : String → Option String) : AssetRow :=
  { id := newId
    ownerId := userId
    createdAt := now
    updatedAt := now
    status := AssetStatus.uploading
    captureMethod := CaptureMethod.webUpload
    sourcePlatform := match optTruthy body.sourcePlatform with
      | some s => s
      | none => match optTruthy body.captureUrl with
        | some u => detectSourceFromUrl hostnameOf u
        | none => "other"
    captureUrl := optTruthy body.captureUrl
    mediaUrl := none
    originalFilename := body.filename
    mimeType := body.mimeType
    sizeBytes := intTruthy body.sizeBytes
    width := none
    height := none
    durationSeconds := none
    storageBucket := ASSETS_BUCKET
    storagePath := generateAssetPath userId body.filename none ts r1
    previewBucket := some PREVIEWS_BUCKET
    previewPath := some (generateAssetPath userId ("preview-" ++ body.filename) (some ("previews")) ts r2)
    sha256 := none
    notes := none }

/-- POST /api/assets/init-upload.  External inputs: the fresh row id
(newId), Date.now (now for the row timestamps, ts for the storage paths),
the two Math.random suffixes, the URL parser (hostnameOf) and the storage
provider's signed-URL issuer (sign, taking bucket and path).  none models
the 400 branch for a missing filename or mime type. -/
def initUploadPOST (userId : String) (body : InitUploadRequest)
    (newId : String) (now ts : Int) (r1 r2 : String)
    (hostnameOf : String → Option String) (sign : String → String → SignedUpload)
    (db : DB) : Option (DB × InitResp) :=
  if body.filename = "" ∨ body.mimeType = "" then none
  else
    let storagePath := generateAssetPath userId body.filename none ts r1
    let previewPath := generateAssetPath userId ("preview-" ++ body.filename) (some ("previews")) ts r2
    let row : AssetRow := initRow userId body newId now ts r1 r2 hostnameOf
    some ({ db with assets := db.assets ++ [row] },
      { assetId := newId
        assetUpload := sign ASSETS_BUCKET storagePath
        previewUpload := sign PREVIEWS_BUCKET previewPath })

/-- The JSON body of POST /api/assets/finalize-upload. -/
structure FinalizeUploadRequest where
  assetId : String
  width : Option Int
  height : Option Int
  durationSeconds : Option Int
  sha256 : Option String
  sizeBytes : Option Int
  notes : Option String

/-- The SET clause of the web finalize route: every metadata column is
overwritten, truthy request values kept and everything else nulled;
durationSeconds is stringified before the truthiness check, so a present
0 is stored as the non-empty string 0. -/
def finalizeSetWeb (body : FinalizeUploadRequest) (now : Int) (a : AssetRow) : AssetRow :=
  { a with
    status := AssetStatus.ready
    width := intTruthy body.width
    height := intTruthy body.height
    durationSeconds := body.durationSeconds.map (fun d => toString d)
    sha256 := optTruthy body.sha256
    sizeBytes := intTruthy body.sizeBytes
    notes := optTruthy body.notes
    updatedAt := now }

/-- POST /api/assets/finalize-upload.  Returns the new database and the
updated row; none models the 400 (missing assetId) and 404 branches. -/
def finalizeUploadPOST (userId : String) (body : FinalizeUploadRequest)
    (now : Int) (db : DB) : DB × Option AssetRow :=
  if body.assetId = "" then (db, none)
  else
    let matched := selWhere (fun a => a.id = body.assetId ∧ a.ownerId = userId) db.assets
    match (matched.map (finalizeSetWeb body now)).head? with
    | none => (db, none)
    | some updatedAsset =>
      ({ db with assets :=
          updWhere (fun a => a.id = body.assetId ∧ a.ownerId = userId) (finalizeSetWeb body now) db.assets },
       some updatedAsset)

/-- The JSON body of the extension finalize route (src/unnamed/part_008). -/
structure ExtFinalizeRequest where
  assetId : String
  width : Option Int
  height : Option Int
  durationSeconds : Option Int
  sha256 : Option String
  tagIds : Option (List String)

/-- The SET clause of the extension finalize route: unlike the web route
it never touches sizeBytes or notes. -/
def finalizeSetExt (body : ExtFinalizeRequest) (now : Int) (a : AssetRow) : AssetRow :=
  { a with
    status := AssetStatus.ready
    width := intTruthy body.width
    height := intTruthy body.height
    durationSeconds := body.durationSeconds.map (fun d => toString d)
    sha256 := optTruthy body.sha256
    updatedAt := now }

/-- POST /api/extension/assets/finalize (src/unnamed/part_008), after PAT
authentication has yielded ownerId: the owner-scoped update plus the
optional tag-link insert. -/
def extFinalizePOST (ownerId : String) (body : ExtFinalizeRequest)
    (now : Int) (db : DB) : DB × Option AssetRow :=
  if body.assetId = "" then (db, none)
  else
    let matched := selWhere (fun a => a.id = body.assetId ∧ a.ownerId = ownerId) db.assets
    match (matched.map (finalizeSetExt body now)).head? with
    | none => (db, none)
    | some updatedAsset =>
      let assets1 :=
        updWhere (fun a => a.id = body.assetId ∧ a.ownerId = ownerId) (finalizeSetExt body now) db.assets
      let db1 := { db with assets := assets1 }
      let db2 := match body.tagIds with
        | some l =>
          if l.isEmpty then db1
          else
            let links1 := db1.assetTags ++ l.map (fun tagId => { assetId := body.assetId, tagId := tagId })
            { db1 with assetTags := links1 }
        | none => db1
      (db2, some updatedAsset)

/-! ## Tag routes (src/unnamed/part_007) -/

/-- GET /api/tags: the owner's tags (name ordering is display-only and
not modelled). -/
def tagsGET (userId : String) (db : DB) : List TagRow :=
  selWhere (fun t => t.ownerId = userId) db.tags

/-- POST /api/tags: none models the 400 branch for a missing name. -/
def tagsPOST (userId : String) (name : Option String) (color : Option String)
    (newId : String) (now : Int) (db : DB) : Option (DB × TagRow) :=
  match optTruthy name with
  | none => none
  | some n =>
    let row : TagRow :=
      { id := newId
        ownerId := userId
        name := n.trim
        color := match optTruthy color with
          | some c => c
          | none => "#6b7280"
        createdAt := now }
    some ({ db with tags := db.tags ++ [row] }, row)

/-- The SET clause of PATCH /api/tags/:id: name (trimmed) and color,
each only when truthy. -/
def tagPatchSet (name color : Option String) (t : TagRow) : TagRow :=
  { t with
    name := match optTruthy name with
      | some n => n.trim
      | none => t.name
    color := match optTruthy color with
      | some c => c
      | none => t.color }

/-- PATCH /api/tags/:id: name and color applied only when truthy; none
models the 400 (no fields) and 404 branches. -/
def tagsIdPATCH (userId id : String) (name : Option String) (color : Option String)
    (db : DB) : DB × Option TagRow :=
  if optTruthy name = none ∧ optTruthy color = none then (db, none)
  else
    let upd := tagPatchSet name color
    let matched := selWhere (fun t => t.id = id ∧ t.ownerId = userId) db.tags
    match (matched.map upd).head? with
    | none => (db, none)
    | some updatedTag =>
      ({ db with tags := updWhere (fun t => t.id = id ∧ t.ownerId = userId) upd db.tags },
       some updatedTag)

/-- DELETE /api/tags/:id: the ownership check, then the join-row delete
by tag id and the tag-row delete by id.  The Bool is the route's success
flag (false models the 404 branch). -/
def tagsIdDELETE (userId id : String) (db : DB) : DB × Bool :=
  match (selWhere (fun t => t.id = id ∧ t.ownerId = userId) db.tags).head? with
  | none => (db, false)
  | some _ =>
    ({ db with
        assetTags := delWhere (fun r => r.tagId = id) db.assetTags
        tags := delWhere (fun t => t.id = id) db.tags },
     true)

/-! ## Token routes (src/app/api/tokens) -/

/-- The first 16 characters of a PAT, stored for display
(getPATPrefix in src/db/schema/personal-access-tokens.ts). -/
def getPATPfx (token : String) : String := ⟨token.data.take 16⟩

/-- POST /api/tokens.  The generated secret and its SHA-256 hash come
from external collaborators (token, hashF); none models the 400 branch
for a missing name. -/
def tokensPOST (userId : String) (name : Option String) (token : String)
    (hashF : String → String) (newId : String) (now : Int)
    (db : DB) : Option (DB × String × TokenRow) :=
  match optTruthy name with
  | none => none
  | some n =>
    let row : TokenRow :=
      { id := newId
        ownerId := userId
        name := n.trim
        tokenHash := hashF token
        tokenPfx := getPATPfx token
        createdAt := now
        lastUsedAt := none
        revokedAt := none
        expiresAt := none }
    some ({ db with tokens := db.tokens ++ [row] }, token, row)

/-- GET /api/tokens: the owner's tokens (creation-time ordering is
display-only and not modelled). -/
def tokensGET (userId : String) (db : DB) : List TokenRow :=
  selWhere (fun t => t.ownerId = userId) db.tokens

/-- DELETE /api/tokens/:id: a hard delete scoped by id and owner; the
route reports success whether or not a row matched. -/
def tokensIdDELETE (userId id : String) (db : DB) : DB × Bool :=
  ({ db with tokens := delWhere (fun t => t.id = id ∧ t.ownerId = userId) db.tokens }, true)

/-! ## PAT verification (the three per-route verifyPAT copies) -/

/-- The shared lookup: the Bearer check, the re-hash and the select by
exact hash among rows whose revoked_at is null. -/
def patLookup (hashF : String → String) (authHeader : Option String)
    (db : DB) : Option TokenRow :=
  match authHeader with
  | none => none
  | some h =>
    if startsWithStr h ("Bearer ") then
      let tok := sliceFrom h 7
      (selWhere (fun p => p.tokenHash = hashF tok ∧ p.revokedAt = none) db.tokens).head?
    else none

/-- verifyPAT of src/app/api/extension/verify/route.ts: returns the owner
id of the matched row and leaves the token table untouched (the function
contains no update statement). -/
def verifyPATVerify (hashF : String → String) (authHeader : Option String)
    (db : DB) : Option String × List TokenRow :=
  match patLookup hashF authHeader db with
  | none => (none, db.tokens)
  | some pat => (some pat.ownerId, db.tokens)

/-- verifyPAT of src/unnamed/part_008 (the extension finalize route):
identical to the verify route's copy, with no last-used update. -/
def verifyPATFinalize (hashF : String → String) (authHeader : Option String)
    (db : DB) : Option String × List TokenRow :=
  match patLookup hashF authHeader db with
  | none => (none, db.tokens)
  | some pat => (some pat.ownerId, db.tokens)

/-- verifyPAT of src/app/api/extension/assets/init/route.ts: on a match
it additionally sets the matched row's last_used_at to now. -/
def verifyPATInit (hashF : String → String) (authHeader : Option String)
    (now : Int) (db : DB) : Option String × List TokenRow :=
  match patLookup hashF authHeader db with
  | none => (none, db.tokens)
  | some pat =>
    (some pat.ownerId,
     updWhere (fun p => p.id = pat.id) (fun p => { p with lastUsedAt := some now }) db.tokens)

/-- GET /api/extension/verify: 200 with the owner id on a match, 401
otherwise. -/
def extensionVerifyGET (hashF : String → String) (authHeader : Option String)
    (db : DB) : Nat × Option String :=
  match (verifyPATVerify hashF authHeader db).1 with
  | none => (401, none)
  | some uid => (200, some uid)

/-! ## Browser-extension content script (src/unnamed/part_003)

The DOM is the external input: each query-selector result is given as a
list of element records carrying the attribute values the script reads.
The background-image regex and the platform JSON regex/JSON.parse steps
run on browser-provided strings, so their extracted URLs appear as data
on the elements.  Date.now and Math.random only feed candidate ids. -/

/-- The relevant attributes of an img element. -/
structure ImgEl where
  currentSrc : String
  src : String
  naturalWidth : Nat
  naturalHeight : Nat
  alt : String

/-- The relevant attributes of a video element; sourceSrc is the src of
a nested source element, when one exists. -/
structure VideoEl where
  currentSrc : String
  src : String
  sourceSrc : Option String
  videoWidth : Nat
  videoHeight : Nat
  poster : String

/-- A media candidate as pushed by the content script (fields not
relevant to any claim, such as alt and poster metadata, are carried
only through the url and id). -/
structure MediaCandidate where
  id : String
  ctype : String
  url : String
  deriving DecidableEq, Repr

/-- The page as seen by the content script: the four query-selector
results plus location data.  bgMatches holds, per element with an inline
background-image style, the first capture group of the url() regex on its
computed background-image (none when the regex does not match);
igScripts holds, per application/json script tag, the decoded video_url
and display_url matches; ttScripts holds, per hydration script tag, the
decoded playAddr matches. -/
structure PageData where
  imgs : List ImgEl
  bgMatches : List (Option String)
  videos : List VideoEl
  hostname : String
  igScripts : List (List String × List String)
  ttScripts : List (List String)

/-- The accumulator threaded through every scanning pass: the candidate
list and the shared seen-URL set. -/
structure ScanState where
  candidates : List MediaCandidate
  seen : List String
  deriving Repr

/-- seenUrls.add(url) followed by candidates.push(c). -/
def pushCand (st : ScanState) (c : MediaCandidate) : ScanState :=
  { candidates := st.candidates ++ [c], seen := c.url :: st.seen }

/-- scanImages: the pass over img elements. -/
def scanImages (now : Int) : List ImgEl → Nat → ScanState → ScanState
  | [], _, st => st
  | img :: rest, i, st =>
    let url := jsOr img.currentSrc img.src
    if url = "" ∨ startsWithStr url ("data:") ∨ st.seen.contains url then
      scanImages now rest i st
    else if img.naturalWidth < 100 ∨ img.naturalHeight < 100 then
      scanImages now rest i st
    else
      scanImages now rest (i + 1)
        (pushCand st { id := "img-" ++ toString i ++ "-" ++ toString now, ctype := "image", url := url })

/-- scanBackgroundImages: the pass over elements with an inline
background-image style, consuming the per-element regex results. -/
def scanBackgroundImages (now : Int) : List (Option String) → Nat → ScanState → ScanState
  | [], _, st => st
  | m :: rest, i, st =>
    match m with
    | none => scanBackgroundImages now rest i st
    | some url =>
      if startsWithStr url ("data:") ∨ st.seen.contains url then
        scanBackgroundImages now rest i st
      else
        scanBackgroundImages now rest (i + 1)
          (pushCand st { id := "bg-" ++ toString i ++ "-" ++ toString now, ctype := "image", url := url })

/-- getVideoUrl: currentSrc, else src, else the nested source's src,
else the empty string. -/
def getVideoUrl (v : VideoEl) : String :=
  jsOr (jsOr v.currentSrc v.src)
    (match v.sourceSrc with
     | some s => s
     | none => "")

/-- handleBlobVideo: fall back to the poster image of a blob-backed
video, pushing it only when the poster is set and unseen. -/
def handleBlobVideo (now : Int) (v : VideoEl) (i : Nat) (st : ScanState) : ScanState :=
  if v.poster ≠ "" ∧ ¬ st.seen.contains v.poster then
    pushCand st { id := "video-poster-" ++ toString i ++ "-" ++ toString now, ctype := "image", url := v.poster }
  else st

/-- scanVideos: the pass over video elements; the index advances on every
element, matching the source's per-iteration increments. -/
def scanVideos (now : Int) : List VideoEl → Nat → ScanState → ScanState
  | [], _, st => st
  | v :: rest, i, st =>
    let url := getVideoUrl v
    if url = "" ∨ startsWithStr url ("blob:") ∨ startsWithStr url ("data:") then
      let st' :=
        if startsWithStr v.currentSrc ("blob:") ∨ startsWithStr v.src ("blob:") then
          handleBlobVideo now v i st
        else st
      scanVideos now rest (i + 1) st'
    else if st.seen.contains url then
      scanVideos now rest (i + 1) st
    else
      scanVideos now rest (i + 1)
        (pushCand st { id := "video-" ++ toString i ++ "-" ++ toString now, ctype := "video", url := url })

/-- One URL list of an Instagram or TikTok JSON scan: push each unseen
url (rnd feeds the random id segments and is irrelevant to the claims). -/
def scanUrlList (idPfx : String) (now : Int) (rnd : String) (ctype : String)
    (blobGuard : Bool) : List String → ScanState → ScanState
  | [], st => st
  | url :: rest, st =>
    if st.seen.contains url ∨ (blobGuard ∧ startsWithStr url ("blob:")) then
      scanUrlList idPfx now rnd ctype blobGuard rest st
    else
      scanUrlList idPfx now rnd ctype blobGuard rest
        (pushCand st { id := idPfx ++ "-" ++ toString now ++ "-" ++ rnd, ctype := ctype, url := url })

/-- scanInstagramMedia: per script tag, the video_url matches then the
display_url matches. -/
def scanInstagramMedia (now : Int) (rnd : String) : List (List String × List String) → ScanState → ScanState
  | [], st => st
  | (vids, imgs) :: rest, st =>
    let st1 := scanUrlList ("ig-video") now rnd ("video") false vids st
    let st2 := scanUrlList ("ig-image") now rnd ("image") false imgs st1
    scanInstagramMedia now rnd rest st2

/-- scanTikTokMedia: per hydration script tag, the playAddr matches,
skipping blob URLs. -/
def scanTikTokMedia (now : Int) (rnd : String) : List (List String) → ScanState → ScanState
  | [], st => st
  | urls :: rest, st =>
    scanTikTokMedia now rnd rest (scanUrlList ("tt-video") now rnd ("video") true urls st)

/-- scanPlatformSpecificMedia: the hostname-gated platform passes. -/
def scanPlatformSpecificMedia (now : Int) (rnd : String) (page : PageData) (st : ScanState) : ScanState :=
  let st1 :=
    if containsStr page.hostname ("instagram.com") then scanInstagramMedia now rnd page.igScripts st
    else st
  if containsStr page.hostname ("tiktok.com") then scanTikTokMedia now rnd page.ttScripts st1
  else st1

/-- The shared-set invariant of the scanning passes: the collected
candidate URLs are pairwise distinct and every one of them is already in
the seen set. -/
def Inv (st : ScanState) : Prop :=
  (st.candidates.map (fun c => c.url)).Nodup ∧
  ∀ u ∈ st.candidates.map (fun c => c.url), st.seen.contains u = true

/-- getCandidates: the four passes in source order over a fresh
candidate list and a fresh shared seen set. -/
def getCandidates (now : Int) (rnd : String) (page : PageData) : List MediaCandidate :=
  let st0 : ScanState := { candidates := [], seen := [] }
  let st1 := scanImages now page.imgs 0 st0
  let st2 := scanBackgroundImages now page.bgMatches 0 st1
  let st3 := scanVideos now page.videos 0 st2
  (scanPlatformSpecificMedia now rnd page st3).candidates

/-! ## Concrete states used by the witnesses and counterexamples -/

/-- An asset row of owner A with both storage pointers set. -/
def c6asset : AssetRow :=
  { id := "a1"
    ownerId := "A"
    createdAt := 1
    updatedAt := 1
    status := AssetStatus.ready
    captureMethod := CaptureMethod.webUpload
    sourcePlatform := "other"
    captureUrl := none
    mediaUrl := none
    originalFilename := "f.png"
    mimeType := "image/png"
    sizeBytes := none
    width := none
    height := none
    durationSeconds := none
    storageBucket := "assets"
    storagePath := "A/1-r-f.png"
    previewBucket := some "previews"
    previewPath := some "previews/A/1-r-p.png"
    sha256 := none
    notes := none }

/-- A database holding only c6asset and one of its tag links. -/
def c6db : DB :=
  { assets := [c6asset]
    assetTags := [⟨"a1", "tx"⟩]
    tags := []
    tokens := [] }

/-- A live token row of owner U whose stored hash equals the raw secret
T under the identity hash used in the witnesses. -/
def c5token : TokenRow :=
  { id := "i1"
    ownerId := "U"
    name := "ext"
    tokenHash := "T"
    tokenPfx := "T"
    createdAt := 1
    lastUsedAt := none
    revokedAt := none
    expiresAt := none }

/-- A database holding only c5token. -/
def c5db : DB := { assets := [], assetTags := [], tags := [], tokens := [c5token] }

/-- A concrete init-upload call on the empty database, used to exhibit
the storage-path shapes the route actually produces. -/
def c8res : Option (DB × InitResp) :=
  initUploadPOST "U"
    { filename := "ad.png", mimeType := "image/png", sizeBytes := none,
      sourcePlatform := none, captureUrl := none }
    "a1" 50 100 "abc123" "def456" (fun _ => none)
    (fun b p => { signedUrl := "su-" ++ b, token := "tk", path := p })
    { assets := [], assetTags := [], tags := [], tokens := [] }

/-- A finalize request carrying only assetId, width and height, as in
the spec's example scenario. -/
def mkFinBody (newId : String) (w h : Int) : FinalizeUploadRequest :=
  { assetId := newId, width := some w, height := some h,
    durationSeconds := none, sha256 := none, sizeBytes := none, notes := none }

/-- An uploading-status asset of owner U that already carries persisted
metadata, used to show which fields a finalize call leaves alone. -/
def c10asset : AssetRow :=
  { id := "a1"
    ownerId := "U"
    createdAt := 1
    updatedAt := 1
    status := AssetStatus.uploading
    captureMethod := CaptureMethod.extensionCapture
    sourcePlatform := "other"
    captureUrl := none
    mediaUrl := none
    originalFilename := "f.png"
    mimeType := "image/png"
    sizeBytes := some 5
    width := some 1
    height := some 1
    durationSeconds := none
    storageBucket := "assets"
    storagePath := "U/1-r-f.png"
    previewBucket := some "previews"
    previewPath := some "previews/U/1-r-p.png"
    sha256 := some "oldhash"
    notes := some "keep" }

/-- A database holding only c10asset. -/
def c10db : DB := { assets := [c10asset], assetTags := [], tags := [], tokens := [] }

/-- A ready asset of owner A holding both requested tags. -/
def c2asset1 : AssetRow :=
  { id := "a1", ownerId := "A", createdAt := 3, updatedAt := 3,
    status := AssetStatus.ready, captureMethod := CaptureMethod.webUpload,
    sourcePlatform := "other", captureUrl := none, mediaUrl := none,
    originalFilename := "one.png", mimeType := "image/png", sizeBytes := none,
    width := none, height := none, durationSeconds := none,
    storageBucket := "assets", storagePath := "A/3-r-one.png",
    previewBucket := none, previewPath := none, sha256 := none, notes := none }

/-- A ready asset of owner A holding only the first requested tag. -/
def c2asset2 : AssetRow :=
  { id := "a2", ownerId := "A", createdAt := 2, updatedAt := 2,
    status := AssetStatus.ready, captureMethod := CaptureMethod.webUpload,
    sourcePlatform := "other", captureUrl := none, mediaUrl := none,
    originalFilename := "two.png", mimeType := "image/png", sizeBytes := none,
    width := none, height := none, durationSeconds := none,
    storageBucket := "assets", storagePath := "A/2-r-two.png",
    previewBucket := none, previewPath := none, sha256 := none, notes := none }

/-- Listing parameters requesting the tag set containing t1 and t2. -/
def c2params : QueryParams :=
  { page := 1, limit := 24, search := "", sourcePlatform := "",
    mimeTypeFilter := "", tagIds := ["t1", "t2"], fromDate := none, toDate := none }

/-- The database for the intersection scenario: a1 holds t1 and t2, a2
holds only t1. -/
def c2db : DB :=
  { assets := [c2asset1, c2asset2]
    assetTags := [⟨"a1", "t1"⟩, ⟨"a1", "t2"⟩, ⟨"a2", "t1"⟩]
    tags := [⟨"t1", "A", "one", "#fff", 0⟩, ⟨"t2", "A", "two", "#fff", 0⟩]
    tokens := [] }

/-- A ready asset owned by A, target of the cross-tenant scenario. -/
def c1asset : AssetRow :=
  { id := "a1", ownerId := "A", createdAt := 1, updatedAt := 1,
    status := AssetStatus.ready, captureMethod := CaptureMethod.webUpload,
    sourcePlatform := "other", captureUrl := none, mediaUrl := none,
    originalFilename := "f.png", mimeType := "image/png", sizeBytes := none,
    width := none, height := none, durationSeconds := none,
    storageBucket := "assets", storagePath := "A/1-r-f.png",
    previewBucket := none, previewPath := none, sha256 := none, notes := none }

/-- A tag owned by B. -/
def c1tagB : TagRow := { id := "t1", ownerId := "B", name := "btag", color := "#000", createdAt := 0 }

/-- A database with A's asset and B's tag and no links yet. -/
def c1db : DB := { assets := [c1asset], assetTags := [], tags := [c1tagB], tokens := [] }

/-! ## Generic lemmas about the query combinators -/

theorem mem_selWhere {α : Type} {P : α → Prop} [DecidablePred P] {l : List α} {a : α} :
    a ∈ selWhere P l ↔ a ∈ l ∧ P a := by
  simp [selWhere, List.mem_filter]

theorem mem_delWhere {α : Type} {P : α → Prop} [DecidablePred P] {l : List α} {a : α} :
    a ∈ delWhere P l ↔ a ∈ l ∧ ¬ P a := by
  simp [delWhere, List.mem_filter]

theorem head?_some_mem {α : Type} {l : List α} {a : α} (h : l.head? = some a) : a ∈ l := by
  cases l with
  | nil => simp at h
  | cons b t =>
    simp at h
    simp [h]

/-- Rows on which the update predicate and the observation predicate are
disjoint pass through an UPDATE unchanged from the observation's point of
view. -/
theorem filter_updWhere {α : Type} (P : α → Prop) [DecidablePred P] (f : α → α)
    (q : α → Bool) (l : List α)
    (h : ∀ a ∈ l, P a → q a = false) (h' : ∀ a ∈ l, P a → q (f a) = false) :
    (updWhere P f l).filter q = l.filter q := by
  induction l with
  | nil => rfl
  | cons a t ih =>
    have ht : (updWhere P f t).filter q = t.filter q :=
      ih (fun x hx => h x (List.mem_cons_of_mem a hx))
        (fun x hx => h' x (List.mem_cons_of_mem a hx))
    by_cases hp : P a
    · have h1 : q a = false := h a (List.mem_cons_self a t) hp
      have h2 : q (f a) = false := h' a (List.mem_cons_self a t) hp
      simp only [updWhere, List.map_cons, if_pos hp, List.filter_cons, h1, h2]
      simpa [updWhere] using ht
    · simp only [updWhere, List.map_cons, if_neg hp, List.filter_cons]
      cases hq : q a <;> simp_all [updWhere]

/-- Rows the DELETE predicate never selects are preserved from the
observation's point of view. -/
theorem filter_delWhere {α : Type} (P : α → Prop) [DecidablePred P]
    (q : α → Bool) (l : List α)
    (h : ∀ a ∈ l, P a → q a = false) :
    (delWhere P l).filter q = l.filter q := by
  induction l with
  | nil => rfl
  | cons a t ih =>
    have ht : (delWhere P t).filter q = t.filter q :=
      ih (fun x hx => h x (List.mem_cons_of_mem a hx))
    by_cases hp : P a
    · have h1 : q a = false := h a (List.mem_cons_self a t) hp
      simp only [delWhere, List.filter_cons, decide_eq_true_eq, if_neg (not_not_intro hp), h1]
      simpa [delWhere] using ht
    · simp only [delWhere, List.filter_cons, decide_eq_true_eq, if_pos hp]
      cases hq : q a <;> simp_all [delWhere]

/-- The rows of a table owned by anyone other than u. -/
def othersBy {α : Type} (owner : α → String) (u : String) (l : List α) : List α :=
  l.filter (fun a => decide (¬ owner a = u))

/-! ## C7: tag deletion removes join rows and the tag only -/

/-- C7: deleting an owned tag succeeds, leaves the assets table literally
unchanged, removes every join row referencing the tag while keeping all
other join rows, and removes the tag row while keeping all other tags. -/
theorem tagsIdDELETE_frame (userId id : String) (db : DB) (t : TagRow)
    (hfound : (selWhere (fun t => t.id = id ∧ t.ownerId = userId) db.tags).head? = some t) :
    (tagsIdDELETE userId id db).2 = true ∧
    (tagsIdDELETE userId id db).1.assets = db.assets ∧
    (∀ r ∈ (tagsIdDELETE userId id db).1.assetTags, ¬ r.tagId = id) ∧
    (∀ r ∈ db.assetTags, ¬ r.tagId = id → r ∈ (tagsIdDELETE userId id db).1.assetTags) ∧
    (∀ r ∈ (tagsIdDELETE userId id db).1.assetTags, r ∈ db.assetTags) ∧
    (∀ tg ∈ (tagsIdDELETE userId id db).1.tags, ¬ tg.id = id) ∧
    (∀ tg ∈ db.tags, ¬ tg.id = id → tg ∈ (tagsIdDELETE userId id db).1.tags) := by
  simp only [tagsIdDELETE, hfound]
  refine ⟨trivial, trivial, ?_, ?_, ?_, ?_, ?_⟩
  · intro r hr
    exact (mem_delWhere.mp hr).2
  · intro r hr hne
    exact mem_delWhere.mpr ⟨hr, hne⟩
  · intro r hr
    exact (mem_delWhere.mp hr).1
  · intro tg htg
    exact (mem_delWhere.mp htg).2
  · intro tg htg hne
    exact mem_delWhere.mpr ⟨htg, hne⟩

/-- Witness for C7 at a concrete database: one owned tag linked to one
asset, plus an unrelated link that survives. -/
theorem tagsIdDELETE_frame_witness :
    ((selWhere (fun t => t.id = "t1" ∧ t.ownerId = "A")
        (DB.mk [] [⟨"a1", "t1"⟩, ⟨"a1", "t2"⟩] [⟨"t1", "A", "promo", "#fff", 0⟩] []).tags).head? =
      some ⟨"t1", "A", "promo", "#fff", 0⟩) ∧
    (tagsIdDELETE "A" "t1" (DB.mk [] [⟨"a1", "t1"⟩, ⟨"a1", "t2"⟩] [⟨"t1", "A", "promo", "#fff", 0⟩] [])).2 = true := by
  have hfound : (selWhere (fun t => t.id = "t1" ∧ t.ownerId = "A")
      (DB.mk [] [⟨"a1", "t1"⟩, ⟨"a1", "t2"⟩] [⟨"t1", "A", "promo", "#fff", 0⟩] []).tags).head? =
      some ⟨"t1", "A", "promo", "#fff", 0⟩ := by decide
  exact ⟨hfound,
    (tagsIdDELETE_frame "A" "t1"
      (DB.mk [] [⟨"a1", "t1"⟩, ⟨"a1", "t2"⟩] [⟨"t1", "A", "promo", "#fff", 0⟩] [])
      ⟨"t1", "A", "promo", "#fff", 0⟩ hfound).1⟩

/-! ## C6: asset deletion is best-effort on storage -/

/-- C6: deleting an owned asset records a deletion attempt for both of
its storage objects, and whatever the storage outcomes are (the theorem
is universal in the storageOk oracle) the asset's tag links and the asset
row are deleted and the route reports success. -/
theorem assetIdDELETE_best_effort (userId id : String) (storageOk : String → String → Bool)
    (db : DB) (asset : AssetRow) (pb pp : String)
    (hfound : (selWhere (fun a => a.id = id ∧ a.ownerId = userId) db.assets).head? = some asset)
    (hpb : asset.previewBucket = some pb) (hpp : asset.previewPath = some pp) :
    (assetIdDELETE userId id storageOk db).2.1 =
      [(asset.storageBucket, asset.storagePath, storageOk asset.storageBucket asset.storagePath),
       (pb, pp, storageOk pb pp)] ∧
    (assetIdDELETE userId id storageOk db).2.2 = true ∧
    (∀ r ∈ (assetIdDELETE userId id storageOk db).1.assetTags, ¬ r.assetId = id) ∧
    (∀ a ∈ (assetIdDELETE userId id storageOk db).1.assets, ¬ a.id = id) := by
  simp only [assetIdDELETE, hfound, hpb, hpp]
  refine ⟨by simp, trivial, ?_, ?_⟩
  · intro r hr
    exact (mem_delWhere.mp hr).2
  · intro a ha
    exact (mem_delWhere.mp ha).2

/-- Witness for C6 at a concrete database whose storage oracle always
fails: both deletions are attempted and the row still goes away with a
success response. -/
theorem assetIdDELETE_best_effort_witness :
    ((selWhere (fun a => a.id = "a1" ∧ a.ownerId = "A") c6db.assets).head? = some c6asset) ∧
    (c6asset.previewBucket = some "previews") ∧
    (assetIdDELETE "A" "a1" (fun _ _ => false) c6db).2.1 =
      [("assets", "A/1-r-f.png", false), ("previews", "previews/A/1-r-p.png", false)] ∧
    (assetIdDELETE "A" "a1" (fun _ _ => false) c6db).2.2 = true := by
  have h := assetIdDELETE_best_effort "A" "a1" (fun _ _ => false) c6db c6asset
    "previews" "previews/A/1-r-p.png" (by decide) (by decide) (by decide)
  exact ⟨by decide, by decide, by simpa using h.1, h.2.1⟩

/-! ## Bearer-header lemmas -/

theorem charsPfx_self_append (l m : List Char) : charsPfx l (l ++ m) = true := by
  induction l with
  | nil => rfl
  | cons c cs ih => simp [charsPfx, ih]

theorem startsWith_bearer (tok : String) :
    startsWithStr ("Bearer " ++ tok) ("Bearer ") = true := by
  simp only [startsWithStr, String.data_append]
  exact charsPfx_self_append _ _

theorem sliceFrom_bearer (tok : String) : sliceFrom ("Bearer " ++ tok) 7 = tok := by
  simp only [sliceFrom, String.data_append]
  have h7 : ("Bearer " : String).data.length = 7 := by decide
  rw [← h7, List.drop_left]

theorem selWhere_head?_none {α : Type} {P : α → Prop} [DecidablePred P] {l : List α} :
    (selWhere P l).head? = none ↔ ∀ a ∈ l, ¬ P a := by
  constructor
  · intro h a ha hP
    have hm : a ∈ selWhere P l := mem_selWhere.mpr ⟨ha, hP⟩
    cases hsel : selWhere P l with
    | nil => rw [hsel] at hm; exact absurd hm (List.not_mem_nil a)
    | cons b t => rw [hsel] at h; simp at h
  · intro h
    cases hsel : selWhere P l with
    | nil => rfl
    | cons b t =>
      have hb : b ∈ selWhere P l := by rw [hsel]; exact List.mem_cons_self b t
      have hmem := mem_selWhere.mp hb
      exact absurd hmem.2 (h b hmem.1)

/-- patLookup on a well-formed bearer header is the head of the
hash-and-not-revoked select. -/
theorem patLookup_bearer (hashF : String → String) (tok : String) (db : DB) :
    patLookup hashF (some ("Bearer " ++ tok)) db =
      (selWhere (fun p => p.tokenHash = hashF tok ∧ p.revokedAt = none) db.tokens).head? := by
  simp [patLookup, startsWith_bearer, sliceFrom_bearer]

/-! ## C4: PAT authentication iff stored non-revoked hash; revocation -/

/-- C4: a bearer request with secret tok is accepted (200) iff some
stored token row carries its hash with a null revocation timestamp, and
once the owner deletes that token via the tokens DELETE route, the same
bearer secret is rejected (401).  The hypothesis says the hash picks out
only the deleted row, the model of SHA-256 collision freedom. -/
theorem pat_auth_iff_and_revocation (hashF : String → String) (tok : String)
    (db : DB) (u i : String)
    (hall : ∀ p ∈ db.tokens, p.tokenHash = hashF tok → p.revokedAt = none →
      p.id = i ∧ p.ownerId = u) :
    ((extensionVerifyGET hashF (some ("Bearer " ++ tok)) db).1 = 200 ↔
      ∃ p ∈ db.tokens, p.tokenHash = hashF tok ∧ p.revokedAt = none) ∧
    (extensionVerifyGET hashF (some ("Bearer " ++ tok)) (tokensIdDELETE u i db).1).1 = 401 := by
  constructor
  · unfold extensionVerifyGET verifyPATVerify
    rw [patLookup_bearer]
    cases hlook : (selWhere (fun p => p.tokenHash = hashF tok ∧ p.revokedAt = none) db.tokens).head? with
    | none =>
      simp only []
      constructor
      · intro h
        exact absurd h (by decide)
      · intro ⟨p, hp, hcond⟩
        exact absurd hcond (selWhere_head?_none.mp hlook p hp)
    | some pat =>
      simp only []
      constructor
      · intro _
        have hm := mem_selWhere.mp (head?_some_mem hlook)
        exact ⟨pat, hm.1, hm.2⟩
      · intro _
        trivial
  · unfold extensionVerifyGET verifyPATVerify
    rw [patLookup_bearer]
    have hnone : (selWhere (fun p => p.tokenHash = hashF tok ∧ p.revokedAt = none)
        (tokensIdDELETE u i db).1.tokens).head? = none := by
      apply selWhere_head?_none.mpr
      intro p hp hcond
      have hdel : p ∈ db.tokens ∧ ¬ (p.id = i ∧ p.ownerId = u) := by
        simpa [tokensIdDELETE, mem_delWhere] using hp
      exact hdel.2 (hall p hdel.1 hcond.1 hcond.2)
    rw [hnone]

/-- Witness for C4: the concrete one-token database accepts its secret
and rejects it after the DELETE, under the identity hash. -/
theorem pat_auth_iff_and_revocation_witness :
    (∀ p ∈ c5db.tokens, p.tokenHash = (fun s => s) "T" → p.revokedAt = none →
      p.id = "i1" ∧ p.ownerId = "U") ∧
    (extensionVerifyGET (fun s => s) (some ("Bearer " ++ "T")) c5db).1 = 200 ∧
    (extensionVerifyGET (fun s => s) (some ("Bearer " ++ "T")) (tokensIdDELETE "U" "i1" c5db).1).1 = 401 := by
  have hall : ∀ p ∈ c5db.tokens, p.tokenHash = (fun s => s) "T" → p.revokedAt = none →
      p.id = "i1" ∧ p.ownerId = "U" := by decide
  have h := pat_auth_iff_and_revocation (fun s => s) "T" c5db "U" "i1" hall
  exact ⟨hall, h.1.mpr ⟨c5token, by decide, by decide⟩, h.2⟩

/-! ## C5: which PAT endpoints update last_used_at -/

/-- C5 counterexample: on the extension verify route (and likewise the
extension finalize route) a successful bearer verification returns the
owner id but leaves the token table untouched, so the matched token's
last-used timestamp stays null instead of being updated as the claim
demands for all PAT endpoints. -/
theorem verifyPAT_lastused_counterexample :
    (verifyPATVerify (fun s => s) (some ("Bearer T")) c5db).1 = some "U" ∧
    (verifyPATVerify (fun s => s) (some ("Bearer T")) c5db).2 = c5db.tokens ∧
    (verifyPATFinalize (fun s => s) (some ("Bearer T")) c5db).1 = some "U" ∧
    (verifyPATFinalize (fun s => s) (some ("Bearer T")) c5db).2 = c5db.tokens ∧
    (∀ p ∈ (verifyPATVerify (fun s => s) (some ("Bearer T")) c5db).2, p.lastUsedAt = none) := by
  refine ⟨by decide, by decide, by decide, by decide, ?_⟩
  intro p hp
  have : p = c5token := by
    have h2 : (verifyPATVerify (fun s => s) (some ("Bearer T")) c5db).2 = [c5token] := by decide
    rw [h2] at hp
    simpa using hp
  rw [this]
  rfl

/-- C5 amended: on a successful bearer verification every route's
verifyPAT returns the owner id of the first stored non-revoked row whose
hash matches the re-hashed secret; only the extension init route's copy
updates that row's last-used timestamp, while the verify and finalize
copies leave the token table unchanged. -/
theorem verifyPAT_lastused_amended (hashF : String → String) (ah : Option String)
    (now : Int) (db : DB) :
    (∀ p, patLookup hashF ah db = some p →
      p ∈ db.tokens ∧ p.revokedAt = none ∧
      ∀ h, ah = some h → startsWithStr h ("Bearer ") = true ∧ p.tokenHash = hashF (sliceFrom h 7)) ∧
    (∀ p, patLookup hashF ah db = some p →
      (verifyPATVerify hashF ah db).1 = some p.ownerId ∧
      (verifyPATFinalize hashF ah db).1 = some p.ownerId ∧
      (verifyPATInit hashF ah now db).1 = some p.ownerId) ∧
    (verifyPATVerify hashF ah db).2 = db.tokens ∧
    (verifyPATFinalize hashF ah db).2 = db.tokens ∧
    (∀ p, patLookup hashF ah db = some p →
      ∃ p' ∈ (verifyPATInit hashF ah now db).2,
        p'.id = p.id ∧ p'.ownerId = p.ownerId ∧ p'.lastUsedAt = some now) := by
  refine ⟨?_, ?_, ?_, ?_, ?_⟩
  · intro p hp
    match hah : ah with
    | none => exact absurd hp (by simp [patLookup])
    | some h =>
      simp only [patLookup] at hp
      by_cases hb : startsWithStr h ("Bearer ") = true
      · rw [if_pos hb] at hp
        have hm := mem_selWhere.mp (head?_some_mem hp)
        exact ⟨hm.1, hm.2.2, fun h' hh' => by
          cases hh'
          exact ⟨hb, hm.2.1⟩⟩
      · rw [if_neg hb] at hp
        exact absurd hp (by simp)
  · intro p hp
    unfold verifyPATVerify verifyPATFinalize verifyPATInit
    rw [hp]
    exact ⟨rfl, rfl, rfl⟩
  · unfold verifyPATVerify
    cases patLookup hashF ah db <;> rfl
  · unfold verifyPATFinalize
    cases patLookup hashF ah db <;> rfl
  · intro p hp
    unfold verifyPATInit
    rw [hp]
    have hpm : p ∈ db.tokens := by
      match hah : ah with
      | none => exact absurd hp (by simp [patLookup])
      | some h =>
        simp only [patLookup] at hp
        by_cases hb : startsWithStr h ("Bearer ") = true
        · rw [if_pos hb] at hp
          exact (mem_selWhere.mp (head?_some_mem hp)).1
        · rw [if_neg hb] at hp
          exact absurd hp (by simp)
    refine ⟨{ p with lastUsedAt := some now }, ?_, rfl, rfl, rfl⟩
    have := List.mem_map_of_mem (fun q => if q.id = p.id then { q with lastUsedAt := some now } else q) hpm
    simpa [updWhere] using this

/-- Witness for C5's amended theorem at the concrete one-token database:
the init copy stamps last_used_at while the others return the owner with
the table unchanged. -/
theorem verifyPAT_lastused_amended_witness :
    patLookup (fun s => s) (some ("Bearer T")) c5db = some c5token ∧
    (verifyPATInit (fun s => s) (some ("Bearer T")) 9 c5db).1 = some "U" ∧
    (∃ p' ∈ (verifyPATInit (fun s => s) (some ("Bearer T")) 9 c5db).2,
      p'.id = "i1" ∧ p'.ownerId = "U" ∧ p'.lastUsedAt = some 9) := by
  have hlook : patLookup (fun s => s) (some ("Bearer T")) c5db = some c5token := by decide
  have h := verifyPAT_lastused_amended (fun s => s) (some ("Bearer T")) 9 c5db
  refine ⟨hlook, (h.2.1 c5token hlook).2.2, ?_⟩
  obtain ⟨p', hp', hid, hown, hl⟩ := h.2.2.2.2 c5token hlook
  exact ⟨p', hp', hid, hown, hl⟩

/-! ## C8: storage path shapes of an initialized upload -/

/-- C8 counterexample: at a concrete init-upload call the preview
object's storage path carries an extra previews/ segment, so it does not
have the claimed owner/timestamp-random-sanitizedFilename form (it
neither starts with the owner segment nor equals the claimed shape). -/
theorem initUpload_path_counterexample :
    (c8res.map (fun x => x.1.assets.map (fun a => a.previewPath))) =
      some [some "previews/U/100-def456-preview-ad.png"] ∧
    startsWithStr "previews/U/100-def456-preview-ad.png" ("U/") = false ∧
    ¬ ("previews/U/100-def456-preview-ad.png" =
        "U" ++ "/" ++ toString (100 : Int) ++ "-" ++ "def456" ++ "-" ++
          sanitizeFilename ("preview-ad.png")) := by
  refine ⟨by decide, by decide, by decide⟩

/-- C8 amended: for every initialized upload the primary object's path is
owner/timestamp-random-sanitizedFilename, while the preview object's path
is previews/owner/timestamp-random-sanitized(preview-filename); the
signed-URL objects are issued for exactly those bucket/path pairs, and
sanitization only ever emits characters of the filename that are already
in the allowed class, or underscores. -/
theorem initUpload_storage_paths (userId : String) (body : InitUploadRequest)
    (newId : String) (now ts : Int) (r1 r2 : String)
    (hostnameOf : String → Option String) (sign : String → String → SignedUpload)
    (db : DB)
    (hf : ¬ body.filename = "") (hm : ¬ body.mimeType = "")
    (hr1 : r1.length = 6) (hr2 : r2.length = 6) :
    ∃ d resp, initUploadPOST userId body newId now ts r1 r2 hostnameOf sign db = some (d, resp) ∧
      (∃ a, d.assets = db.assets ++ [a] ∧
        a.storageBucket = ASSETS_BUCKET ∧
        a.storagePath =
          userId ++ "/" ++ toString ts ++ "-" ++ r1 ++ "-" ++ sanitizeFilename body.filename ∧
        a.previewBucket = some PREVIEWS_BUCKET ∧
        a.previewPath = some ("previews/" ++ userId ++ "/" ++ toString ts ++ "-" ++ r2 ++ "-" ++
          sanitizeFilename ("preview-" ++ body.filename)) ∧
        resp.assetUpload = sign ASSETS_BUCKET a.storagePath ∧
        resp.previewUpload = sign PREVIEWS_BUCKET ("previews/" ++ userId ++ "/" ++ toString ts ++
          "-" ++ r2 ++ "-" ++ sanitizeFilename ("preview-" ++ body.filename))) ∧
      (∀ c ∈ (sanitizeFilename body.filename).data, allowedPathChar c = true ∨ c = '_') := by
  have hcond : ¬ (body.filename = "" ∨ body.mimeType = "") := by
    intro h
    cases h with
    | inl h => exact hf h
    | inr h => exact hm h
  have hlit : ("previews" ++ "/" : String) = "previews/" := by decide
  have hpath : generateAssetPath userId ("preview-" ++ body.filename) (some ("previews")) ts r2 =
      "previews/" ++ userId ++ "/" ++ toString ts ++ "-" ++ r2 ++ "-" ++
        sanitizeFilename ("preview-" ++ body.filename) := by
    simp only [generateAssetPath, hlit]
  unfold initUploadPOST
  rw [if_neg hcond]
  refine ⟨_, _, rfl, ⟨_, rfl, rfl, rfl, rfl, ?_, rfl, ?_⟩, ?_⟩
  · simp only [initRow, hpath]
  · simp only [initRow, hpath]
  · intro c hc
    simp only [sanitizeFilename, List.mem_map] at hc
    obtain ⟨c0, _, hc0⟩ := hc
    by_cases hall : allowedPathChar c0 = true
    · left
      rw [← hc0, if_pos hall]
      exact hall
    · right
      rw [← hc0, if_neg hall]

/-- Witness for C8's amended theorem at the same concrete inputs as the
counterexample. -/
theorem initUpload_storage_paths_witness :
    (¬ ("ad.png" : String) = "") ∧ (("abc123" : String).length = 6) ∧
    ∃ d resp, initUploadPOST "U"
      { filename := "ad.png", mimeType := "image/png", sizeBytes := none,
        sourcePlatform := none, captureUrl := none }
      "a1" 50 100 "abc123" "def456" (fun _ => none)
      (fun b p => { signedUrl := "su-" ++ b, token := "tk", path := p })
      { assets := [], assetTags := [], tags := [], tokens := [] } = some (d, resp) ∧
      (∃ a, d.assets = [] ++ [a] ∧
        a.storageBucket = ASSETS_BUCKET ∧
        a.storagePath = "U" ++ "/" ++ toString (100 : Int) ++ "-" ++ "abc123" ++ "-" ++
          sanitizeFilename "ad.png" ∧
        a.previewBucket = some PREVIEWS_BUCKET ∧
        a.previewPath = some ("previews/" ++ "U" ++ "/" ++ toString (100 : Int) ++ "-" ++ "def456" ++
          "-" ++ sanitizeFilename ("preview-" ++ "ad.png")) ∧
        resp.assetUpload = (fun b p => SignedUpload.mk ("su-" ++ b) "tk" p) ASSETS_BUCKET a.storagePath ∧
        resp.previewUpload = (fun b p => SignedUpload.mk ("su-" ++ b) "tk" p) PREVIEWS_BUCKET
          ("previews/" ++ "U" ++ "/" ++ toString (100 : Int) ++ "-" ++ "def456" ++ "-" ++
            sanitizeFilename ("preview-" ++ "ad.png"))) ∧
      (∀ c ∈ (sanitizeFilename ("ad.png" : String)).data, allowedPathChar c = true ∨ c = '_') := by
  refine ⟨by decide, by decide, ?_⟩
  exact initUpload_storage_paths "U"
    { filename := "ad.png", mimeType := "image/png", sizeBytes := none,
      sourcePlatform := none, captureUrl := none }
    "a1" 50 100 "abc123" "def456" (fun _ => none)
    (fun b p => { signedUrl := "su-" ++ b, token := "tk", path := p })
    { assets := [], assetTags := [], tags := [], tokens := [] }
    (by decide) (by decide) (by decide) (by decide)

/-! ## C3: the init-upload / finalize-upload handshake -/

theorem selWhere_append {α : Type} (P : α → Prop) [DecidablePred P] (l1 l2 : List α) :
    selWhere P (l1 ++ l2) = selWhere P l1 ++ selWhere P l2 :=
  List.filter_append _ _

theorem selWhere_eq_nil {α : Type} {P : α → Prop} [DecidablePred P] {l : List α}
    (h : ∀ a ∈ l, ¬ P a) : selWhere P l = [] := by
  simp only [selWhere, List.filter_eq_nil_iff, decide_eq_true_eq]
  exact h

theorem mem_updWhere_of_mem {α : Type} {P : α → Prop} [DecidablePred P] {f : α → α}
    {l : List α} {a : α} (ha : a ∈ l) (hP : P a) : f a ∈ updWhere P f l := by
  have hm := List.mem_map_of_mem (fun x => if P x then f x else x) ha
  rw [updWhere]
  simpa [hP] using hm

/-- Finalizing a database whose assets are a fresh-id row appended to
rows without that id updates exactly that row. -/
theorem finalize_fresh (userId newId : String) (w h now2 : Int) (db : DB) (row : AssetRow)
    (pre : List AssetRow)
    (hassets : db.assets = pre ++ [row])
    (hnid : ¬ newId = "") (hfresh : ∀ a ∈ pre, ¬ a.id = newId)
    (hrowid : row.id = newId) (hrowown : row.ownerId = userId)
    (hw : ¬ w = 0) (hh : ¬ h = 0) :
    ((finalizeUploadPOST userId (mkFinBody newId w h) now2 db).2 =
      some (finalizeSetWeb (mkFinBody newId w h) now2 row)) ∧
    (finalizeSetWeb (mkFinBody newId w h) now2 row).status = AssetStatus.ready ∧
    (finalizeSetWeb (mkFinBody newId w h) now2 row).width = some w ∧
    (finalizeSetWeb (mkFinBody newId w h) now2 row).height = some h ∧
    (finalizeSetWeb (mkFinBody newId w h) now2 row).id = newId ∧
    (finalizeSetWeb (mkFinBody newId w h) now2 row) ∈
      (finalizeUploadPOST userId (mkFinBody newId w h) now2 db).1.assets := by
  have hProw : row.id = newId ∧ row.ownerId = userId := ⟨hrowid, hrowown⟩
  have hsel : selWhere (fun a => a.id = newId ∧ a.ownerId = userId) db.assets = [row] := by
    rw [hassets, selWhere_append,
      selWhere_eq_nil (fun a ha hP => hfresh a ha hP.1)]
    simp [selWhere, hrowid, hrowown]
  have hwidth : intTruthy (some w) = some w := by simp [intTruthy, hw]
  have hheight : intTruthy (some h) = some h := by simp [intTruthy, hh]
  refine ⟨?_, rfl, ?_, ?_, hrowid, ?_⟩
  · simp only [finalizeUploadPOST, mkFinBody]
    rw [if_neg hnid, hsel]
    rfl
  · simpa [finalizeSetWeb, mkFinBody] using hwidth
  · simpa [finalizeSetWeb, mkFinBody] using hheight
  · simp only [finalizeUploadPOST, mkFinBody]
    rw [if_neg hnid, hsel]
    exact mem_updWhere_of_mem (by rw [hassets]; exact List.mem_append.mpr (Or.inr (List.mem_singleton.mpr rfl))) hProw

/-- C3: a valid init-upload request creates an asset in uploading status,
returns its id together with the two signed-URL objects for the primary
and preview paths, and a finalize request with that id and nonzero width
and height flips the row to ready and persists both dimensions. -/
theorem upload_handshake (userId : String) (body : InitUploadRequest) (newId : String)
    (now ts now2 w h : Int) (r1 r2 : String)
    (hostnameOf : String → Option String) (sign : String → String → SignedUpload)
    (db : DB)
    (hf : ¬ body.filename = "") (hm : ¬ body.mimeType = "")
    (hnid : ¬ newId = "")
    (hfresh : ∀ a ∈ db.assets, ¬ a.id = newId)
    (hw : ¬ w = 0) (hh : ¬ h = 0) :
    ∃ d resp, initUploadPOST userId body newId now ts r1 r2 hostnameOf sign db = some (d, resp) ∧
      resp.assetId = newId ∧
      (∃ a ∈ d.assets, a.id = newId ∧ a.ownerId = userId ∧ a.status = AssetStatus.uploading) ∧
      resp.assetUpload = sign ASSETS_BUCKET (generateAssetPath userId body.filename none ts r1) ∧
      resp.previewUpload =
        sign PREVIEWS_BUCKET (generateAssetPath userId ("preview-" ++ body.filename) (some ("previews")) ts r2) ∧
      (∃ a', (finalizeUploadPOST userId (mkFinBody newId w h) now2 d).2 = some a' ∧
        a'.status = AssetStatus.ready ∧ a'.width = some w ∧ a'.height = some h) ∧
      (∃ a'' ∈ (finalizeUploadPOST userId (mkFinBody newId w h) now2 d).1.assets,
        a''.id = newId ∧ a''.status = AssetStatus.ready ∧
        a''.width = some w ∧ a''.height = some h) := by
  have hcond : ¬ (body.filename = "" ∨ body.mimeType = "") := by
    intro hc
    cases hc with
    | inl hc => exact hf hc
    | inr hc => exact hm hc
  unfold initUploadPOST
  rw [if_neg hcond]
  refine ⟨_, _, rfl, rfl, ?_, rfl, rfl, ?_, ?_⟩
  · exact ⟨initRow userId body newId now ts r1 r2 hostnameOf,
      List.mem_append.mpr (Or.inr (List.mem_singleton.mpr rfl)), rfl, rfl, rfl⟩
  · have hfin := finalize_fresh userId newId w h now2
      { db with assets := db.assets ++ [initRow userId body newId now ts r1 r2 hostnameOf] }
      (initRow userId body newId now ts r1 r2 hostnameOf)
      db.assets rfl hnid hfresh rfl rfl hw hh
    exact ⟨_, hfin.1, hfin.2.1, hfin.2.2.1, hfin.2.2.2.1⟩
  · have hfin := finalize_fresh userId newId w h now2
      { db with assets := db.assets ++ [initRow userId body newId now ts r1 r2 hostnameOf] }
      (initRow userId body newId now ts r1 r2 hostnameOf)
      db.assets rfl hnid hfresh rfl rfl hw hh
    exact ⟨_, hfin.2.2.2.2.2, hfin.2.2.2.2.1, hfin.2.1, hfin.2.2.1, hfin.2.2.2.1⟩

/-- Witness for C3 at the spec's example scenario: filename ad.png,
image/png, width 800, height 600, on the empty database. -/
theorem upload_handshake_witness :
    (¬ ("ad.png" : String) = "") ∧
    ∃ d resp, initUploadPOST "U"
      { filename := "ad.png", mimeType := "image/png", sizeBytes := none,
        sourcePlatform := none, captureUrl := none }
      "a1" 50 100 "abc123" "def456" (fun _ => none)
      (fun b p => { signedUrl := "su-" ++ b, token := "tk", path := p })
      { assets := [], assetTags := [], tags := [], tokens := [] } = some (d, resp) ∧
      resp.assetId = "a1" ∧
      (∃ a ∈ d.assets, a.id = "a1" ∧ a.ownerId = "U" ∧ a.status = AssetStatus.uploading) ∧
      (∃ a', (finalizeUploadPOST "U" (mkFinBody "a1" 800 600) 60 d).2 = some a' ∧
        a'.status = AssetStatus.ready ∧ a'.width = some 800 ∧ a'.height = some 600) := by
  refine ⟨by decide, ?_⟩
  have hmain := upload_handshake "U"
    { filename := "ad.png", mimeType := "image/png", sizeBytes := none,
      sourcePlatform := none, captureUrl := none }
    "a1" 50 100 60 800 600 "abc123" "def456" (fun _ => none)
    (fun b p => { signedUrl := "su-" ++ b, token := "tk", path := p })
    { assets := [], assetTags := [], tags := [], tokens := [] }
    (by decide) (by decide) (by decide) (by intro a ha; exact absurd ha (List.not_mem_nil a))
    (by decide) (by decide)
  obtain ⟨d, resp, heq, hid, hup, _, _, hfin, _⟩ := hmain
  exact ⟨d, resp, heq, hid, hup, hfin⟩

/-! ## C10: which fields a successful finalize overwrites -/

/-- When some row matches, the web finalize route's asset table is the
owner-scoped update by the web SET clause. -/
theorem finalizeUpload_assets (userId : String) (bw : FinalizeUploadRequest)
    (now : Int) (db : DB)
    (hne : ¬ bw.assetId = "")
    (hnonempty : selWhere (fun x => x.id = bw.assetId ∧ x.ownerId = userId) db.assets ≠ []) :
    (finalizeUploadPOST userId bw now db).1.assets =
      updWhere (fun x => x.id = bw.assetId ∧ x.ownerId = userId) (finalizeSetWeb bw now) db.assets := by
  unfold finalizeUploadPOST
  rw [if_neg hne]
  cases hsel : selWhere (fun x => x.id = bw.assetId ∧ x.ownerId = userId) db.assets with
  | nil => exact absurd hsel hnonempty
  | cons b t => simp only [hsel, List.map_cons, List.head?_cons]

/-- When some row matches, the extension finalize route's asset table is
the owner-scoped update by the extension SET clause, whatever the tagIds
field holds. -/
theorem extFinalize_assets (ownerId : String) (be : ExtFinalizeRequest)
    (now : Int) (db : DB)
    (hne : ¬ be.assetId = "")
    (hnonempty : selWhere (fun x => x.id = be.assetId ∧ x.ownerId = ownerId) db.assets ≠ []) :
    (extFinalizePOST ownerId be now db).1.assets =
      updWhere (fun x => x.id = be.assetId ∧ x.ownerId = ownerId) (finalizeSetExt be now) db.assets := by
  unfold extFinalizePOST
  rw [if_neg hne]
  cases hsel : selWhere (fun x => x.id = be.assetId ∧ x.ownerId = ownerId) db.assets with
  | nil => exact absurd hsel hnonempty
  | cons b t =>
    simp only [hsel, List.map_cons, List.head?_cons]
    cases be.tagIds with
    | none => rfl
    | some l =>
      by_cases hl : l.isEmpty
      · simp only [if_pos hl]
      · simp only [if_neg hl]

/-- C10 counterexample: the extension finalize route leaves a previously
persisted sizeBytes and notes untouched instead of nulling them when the
request omits them, and the web route stores a present durationSeconds of
0 as the string 0 rather than as null. -/
theorem finalize_overwrite_counterexample :
    ((extFinalizePOST "U"
        { assetId := "a1", width := none, height := some 2,
          durationSeconds := none, sha256 := none, tagIds := none }
        99 c10db).2.map (fun a => a.sizeBytes)) = some (some 5) ∧
    ((extFinalizePOST "U"
        { assetId := "a1", width := none, height := some 2,
          durationSeconds := none, sha256 := none, tagIds := none }
        99 c10db).2.map (fun a => a.notes)) = some (some "keep") ∧
    ((finalizeUploadPOST "U"
        { assetId := "a1", width := none, height := none,
          durationSeconds := some 0, sha256 := none, sizeBytes := none, notes := none }
        99 c10db).2.map (fun a => a.durationSeconds)) = some (some "0") := by
  refine ⟨by decide, by decide, by decide⟩

/-- C10 amended: a successful web finalize overwrites width, height,
durationSeconds, sha256, sizeBytes and notes — truthy request values are
stored (a present durationSeconds is stringified, so 0 becomes the string
0) and all other values become null; a successful extension finalize does
the same for width, height, durationSeconds and sha256 but leaves the
asset's sizeBytes and notes exactly as they were. -/
theorem finalize_overwrite_amended (userId : String) (bw : FinalizeUploadRequest)
    (be : ExtFinalizeRequest) (now : Int) (db : DB) (a : AssetRow)
    (ha : a ∈ db.assets) (hown : a.ownerId = userId)
    (hidw : a.id = bw.assetId) (hnew : ¬ bw.assetId = "")
    (hide : a.id = be.assetId) (hnee : ¬ be.assetId = "") :
    (∃ a' ∈ (finalizeUploadPOST userId bw now db).1.assets,
      a'.id = a.id ∧ a'.status = AssetStatus.ready ∧
      a'.width = intTruthy bw.width ∧ a'.height = intTruthy bw.height ∧
      a'.durationSeconds = bw.durationSeconds.map (fun d => toString d) ∧
      a'.sha256 = optTruthy bw.sha256 ∧
      a'.sizeBytes = intTruthy bw.sizeBytes ∧ a'.notes = optTruthy bw.notes) ∧
    (∃ a' ∈ (extFinalizePOST userId be now db).1.assets,
      a'.id = a.id ∧ a'.status = AssetStatus.ready ∧
      a'.width = intTruthy be.width ∧ a'.height = intTruthy be.height ∧
      a'.durationSeconds = be.durationSeconds.map (fun d => toString d) ∧
      a'.sha256 = optTruthy be.sha256 ∧
      a'.sizeBytes = a.sizeBytes ∧ a'.notes = a.notes) := by
  have hPw : a.id = bw.assetId ∧ a.ownerId = userId := ⟨hidw, hown⟩
  have hPe : a.id = be.assetId ∧ a.ownerId = userId := ⟨hide, hown⟩
  have hnw : selWhere (fun x => x.id = bw.assetId ∧ x.ownerId = userId) db.assets ≠ [] := by
    intro hnil
    have hmem : a ∈ selWhere (fun x => x.id = bw.assetId ∧ x.ownerId = userId) db.assets :=
      mem_selWhere.mpr ⟨ha, hPw⟩
    rw [hnil] at hmem
    exact absurd hmem (List.not_mem_nil a)
  have hne : selWhere (fun x => x.id = be.assetId ∧ x.ownerId = userId) db.assets ≠ [] := by
    intro hnil
    have hmem : a ∈ selWhere (fun x => x.id = be.assetId ∧ x.ownerId = userId) db.assets :=
      mem_selWhere.mpr ⟨ha, hPe⟩
    rw [hnil] at hmem
    exact absurd hmem (List.not_mem_nil a)
  constructor
  · refine ⟨finalizeSetWeb bw now a, ?_, rfl, rfl, rfl, rfl, rfl, rfl, rfl, rfl⟩
    rw [finalizeUpload_assets userId bw now db hnew hnw]
    exact mem_updWhere_of_mem ha hPw
  · refine ⟨finalizeSetExt be now a, ?_, rfl, rfl, rfl, rfl, rfl, rfl, rfl, rfl⟩
    rw [extFinalize_assets userId be now db hnee hne]
    exact mem_updWhere_of_mem ha hPe

/-- Witness for C10's amended theorem at the concrete asset: the web
route nulls the omitted sizeBytes while the extension route keeps the
stored 5. -/
theorem finalize_overwrite_amended_witness :
    c10asset ∈ c10db.assets ∧
    (∃ a' ∈ (finalizeUploadPOST "U"
        { assetId := "a1", width := none, height := none,
          durationSeconds := some 0, sha256 := none, sizeBytes := none, notes := none }
        99 c10db).1.assets,
      a'.id = "a1" ∧ a'.status = AssetStatus.ready ∧
      a'.sizeBytes = intTruthy none ∧ a'.durationSeconds = some "0") ∧
    (∃ a' ∈ (extFinalizePOST "U"
        { assetId := "a1", width := none, height := some 2,
          durationSeconds := none, sha256 := none, tagIds := none }
        99 c10db).1.assets,
      a'.id = "a1" ∧ a'.sizeBytes = some 5 ∧ a'.notes = some "keep") := by
  have h := finalize_overwrite_amended "U"
    { assetId := "a1", width := none, height := none,
      durationSeconds := some 0, sha256 := none, sizeBytes := none, notes := none }
    { assetId := "a1", width := none, height := some 2,
      durationSeconds := none, sha256 := none, tagIds := none }
    99 c10db c10asset (by decide) (by decide) (by decide) (by decide) (by decide) (by decide)
  obtain ⟨⟨aw, hmw, hiw, hsw, _, _, hdw, _, hszw, _⟩, ⟨ae, hme, hie, _, _, _, _, _, hsze, hne⟩⟩ := h
  refine ⟨by decide, ⟨aw, hmw, ?_, hsw, hszw, ?_⟩, ⟨ae, hme, ?_, ?_, ?_⟩⟩
  · rw [hiw]; decide
  · rw [hdw]; decide
  · rw [hie]; decide
  · rw [hsze]; decide
  · rw [hne]; decide

/-! ## C9: the content script deduplicates across all passes -/

theorem inv_pushCand {st : ScanState} {c : MediaCandidate}
    (h : Inv st) (hc : st.seen.contains c.url = false) : Inv (pushCand st c) := by
  have hnotmem : c.url ∉ st.candidates.map (fun x => x.url) := by
    intro hm
    have := h.2 c.url hm
    rw [hc] at this
    exact absurd this (by decide)
  constructor
  · simp only [pushCand, List.map_append, List.map_cons, List.map_nil, List.nodup_append]
    exact ⟨h.1, List.nodup_singleton _, List.disjoint_singleton.mpr hnotmem⟩
  · intro u hu
    simp only [pushCand, List.map_append, List.map_cons, List.map_nil, List.mem_append,
      List.mem_singleton] at hu
    simp only [pushCand, List.contains_cons, Bool.or_eq_true]
    cases hu with
    | inl hu =>
      right
      exact h.2 u hu
    | inr hu =>
      left
      simp [hu]

theorem contains_false_of_not_true {l : List String} {u : String}
    (h : ¬ l.contains u = true) : l.contains u = false := by
  cases hb : l.contains u with
  | false => rfl
  | true => exact absurd hb h

theorem scanImages_inv (now : Int) (l : List ImgEl) :
    ∀ i st, Inv st → Inv (scanImages now l i st) := by
  induction l with
  | nil => intro i st h; exact h
  | cons img rest ih =>
    intro i st h
    rw [scanImages]
    by_cases h1 : jsOr img.currentSrc img.src = "" ∨
        startsWithStr (jsOr img.currentSrc img.src) ("data:") = true ∨
        st.seen.contains (jsOr img.currentSrc img.src) = true
    · rw [if_pos h1]
      exact ih i st h
    · rw [if_neg h1]
      by_cases h2 : img.naturalWidth < 100 ∨ img.naturalHeight < 100
      · rw [if_pos h2]
        exact ih i st h
      · rw [if_neg h2]
        apply ih
        apply inv_pushCand h
        exact contains_false_of_not_true (fun hb => h1 (Or.inr (Or.inr hb)))

theorem scanBackgroundImages_inv (now : Int) (l : List (Option String)) :
    ∀ i st, Inv st → Inv (scanBackgroundImages now l i st) := by
  induction l with
  | nil => intro i st h; exact h
  | cons m rest ih =>
    intro i st h
    cases m with
    | none =>
      rw [scanBackgroundImages]
      exact ih i st h
    | some url =>
      rw [scanBackgroundImages]
      by_cases h1 : startsWithStr url ("data:") = true ∨ st.seen.contains url = true
      · rw [if_pos h1]
        exact ih i st h
      · rw [if_neg h1]
        apply ih
        apply inv_pushCand h
        exact contains_false_of_not_true (fun hb => h1 (Or.inr hb))

theorem handleBlobVideo_inv (now : Int) (v : VideoEl) (i : Nat) (st : ScanState)
    (h : Inv st) : Inv (handleBlobVideo now v i st) := by
  rw [handleBlobVideo]
  by_cases h1 : v.poster ≠ "" ∧ ¬ st.seen.contains v.poster = true
  · rw [if_pos h1]
    exact inv_pushCand h (contains_false_of_not_true h1.2)
  · rw [if_neg h1]
    exact h

theorem scanVideos_inv (now : Int) (l : List VideoEl) :
    ∀ i st, Inv st → Inv (scanVideos now l i st) := by
  induction l with
  | nil => intro i st h; exact h
  | cons v rest ih =>
    intro i st h
    rw [scanVideos]
    by_cases h1 : getVideoUrl v = "" ∨ startsWithStr (getVideoUrl v) ("blob:") = true ∨
        startsWithStr (getVideoUrl v) ("data:") = true
    · rw [if_pos h1]
      by_cases h2 : startsWithStr v.currentSrc ("blob:") = true ∨ startsWithStr v.src ("blob:") = true
      · rw [if_pos h2]
        exact ih _ _ (handleBlobVideo_inv now v i st h)
      · rw [if_neg h2]
        exact ih _ _ h
    · rw [if_neg h1]
      by_cases h3 : st.seen.contains (getVideoUrl v) = true
      · rw [if_pos h3]
        exact ih _ _ h
      · rw [if_neg h3]
        apply ih
        apply inv_pushCand h
        exact contains_false_of_not_true h3

theorem scanUrlList_inv (idPfx : String) (now : Int) (rnd ctype : String) (blobGuard : Bool)
    (l : List String) : ∀ st, Inv st → Inv (scanUrlList idPfx now rnd ctype blobGuard l st) := by
  induction l with
  | nil => intro st h; exact h
  | cons url rest ih =>
    intro st h
    rw [scanUrlList]
    by_cases h1 : st.seen.contains url = true ∨ (blobGuard = true ∧ startsWithStr url ("blob:") = true)
    · rw [if_pos h1]
      exact ih st h
    · rw [if_neg h1]
      apply ih
      apply inv_pushCand h
      exact contains_false_of_not_true (fun hb => h1 (Or.inl hb))

theorem scanInstagramMedia_inv (now : Int) (rnd : String) (l : List (List String × List String)) :
    ∀ st, Inv st → Inv (scanInstagramMedia now rnd l st) := by
  induction l with
  | nil => intro st h; exact h
  | cons p rest ih =>
    intro st h
    rw [scanInstagramMedia]
    exact ih _ (scanUrlList_inv _ _ _ _ _ _ _ (scanUrlList_inv _ _ _ _ _ _ _ h))

theorem scanTikTokMedia_inv (now : Int) (rnd : String) (l : List (List String)) :
    ∀ st, Inv st → Inv (scanTikTokMedia now rnd l st) := by
  induction l with
  | nil => intro st h; exact h
  | cons urls rest ih =>
    intro st h
    rw [scanTikTokMedia]
    exact ih _ (scanUrlList_inv _ _ _ _ _ _ _ h)

theorem scanPlatformSpecificMedia_inv (now : Int) (rnd : String) (page : PageData)
    (st : ScanState) (h : Inv st) : Inv (scanPlatformSpecificMedia now rnd page st) := by
  rw [scanPlatformSpecificMedia]
  by_cases h1 : containsStr page.hostname ("instagram.com") = true
  · rw [if_pos h1]
    by_cases h2 : containsStr page.hostname ("tiktok.com") = true
    · rw [if_pos h2]
      exact scanTikTokMedia_inv _ _ _ _ (scanInstagramMedia_inv _ _ _ _ h)
    · rw [if_neg h2]
      exact scanInstagramMedia_inv _ _ _ _ h
  · rw [if_neg h1]
    by_cases h2 : containsStr page.hostname ("tiktok.com") = true
    · rw [if_pos h2]
      exact scanTikTokMedia_inv _ _ _ _ h
    · rw [if_neg h2]
      exact h

/-- C9: the candidate list produced by getCandidates never repeats a URL:
all four passes consult the single shared seen set before pushing, so the
returned URLs are pairwise distinct. -/
theorem getCandidates_urls_nodup (now : Int) (rnd : String) (page : PageData) :
    ((getCandidates now rnd page).map (fun c => c.url)).Nodup := by
  have h0 : Inv { candidates := [], seen := [] } := by
    constructor
    · exact List.nodup_nil
    · intro u hu
      exact absurd hu (by simp)
  have h1 := scanImages_inv now page.imgs 0 _ h0
  have h2 := scanBackgroundImages_inv now page.bgMatches 0 _ h1
  have h3 := scanVideos_inv now page.videos 0 _ h2
  have h4 := scanPlatformSpecificMedia_inv now rnd page _ h3
  exact h4.1

/-! ## C2: tag filtering is intersection, not union -/

theorem subset_of_nodup_length_eq {l m : List String} (hl : l.Nodup) (hm : m.Nodup)
    (hsub : ∀ x ∈ m, x ∈ l) (hlen : m.length = l.length) : ∀ x ∈ l, x ∈ m := by
  have hfin : m.toFinset ⊆ l.toFinset := by
    intro x hx
    exact List.mem_toFinset.mpr (hsub x (List.mem_toFinset.mp hx))
  have hcard : l.toFinset.card ≤ m.toFinset.card := by
    rw [List.toFinset_card_of_nodup hl, List.toFinset_card_of_nodup hm, hlen]
  have heq := Finset.eq_of_subset_of_card_le hfin hcard
  intro x hx
  have hx' : x ∈ l.toFinset := List.mem_toFinset.mpr hx
  rw [← heq] at hx'
  exact List.mem_toFinset.mp hx'

/-- C2: with a non-empty set of pairwise-distinct requested tag ids, an
asset is returned by the listing query only when, for every requested tag
id, a join row links that asset to it.  In particular an asset linked to
a strict subset of the requested ids is never returned. -/
theorem listAssets_tag_intersection (userId : String) (p : QueryParams) (db : DB)
    (hne : p.tagIds ≠ []) (hnd : p.tagIds.Nodup) :
    ∀ a ∈ listAssetRows userId p db, ∀ t ∈ p.tagIds,
      ∃ r ∈ db.assetTags, r.assetId = a.id ∧ r.tagId = t := by
  intro a ha t ht
  have hempty : ¬ (p.tagIds.isEmpty = true) := by
    intro hb
    exact hne (List.isEmpty_iff.mp hb)
  rw [listAssetRows] at ha
  rw [if_neg hempty] at ha
  have ha1 := List.mem_of_mem_take ha
  have ha2 := List.mem_of_mem_drop ha1
  have ha3 := (List.perm_insertionSort
    (fun a b : AssetRow => b.createdAt ≤ a.createdAt) _).mem_iff.mp ha2
  have hcond := (List.mem_filter.mp ha3).2
  have hlen : (matchedTagIds db.assetTags p.tagIds a.id).length = p.tagIds.length :=
    of_decide_eq_true hcond
  have hmnodup : (matchedTagIds db.assetTags p.tagIds a.id).Nodup := List.nodup_dedup _
  have hmsub : ∀ x ∈ matchedTagIds db.assetTags p.tagIds a.id, x ∈ p.tagIds := by
    intro x hx
    rw [matchedTagIds] at hx
    have hx1 := List.mem_dedup.mp hx
    obtain ⟨r, hr, hrx⟩ := List.mem_map.mp hx1
    have hrP := (mem_selWhere.mp hr).2
    rw [← hrx]
    exact hrP.2
  have htm : t ∈ matchedTagIds db.assetTags p.tagIds a.id :=
    subset_of_nodup_length_eq hnd hmnodup hmsub hlen t ht
  rw [matchedTagIds] at htm
  obtain ⟨r, hr, hrt⟩ := List.mem_map.mp (List.mem_dedup.mp htm)
  have hrmem := mem_selWhere.mp hr
  exact ⟨r, hrmem.1, hrmem.2.1, hrt⟩

/-- Witness for C2 at the concrete intersection scenario: the asset
holding both tags is returned with join rows for each requested id, and
the asset holding only one of the two tags is not returned. -/
theorem listAssets_tag_intersection_witness :
    c2asset1 ∈ listAssetRows "A" c2params c2db ∧
    c2asset2 ∉ listAssetRows "A" c2params c2db ∧
    (∃ r ∈ c2db.assetTags, r.assetId = c2asset1.id ∧ r.tagId = "t2") := by
  have hmem : c2asset1 ∈ listAssetRows "A" c2params c2db := by decide
  refine ⟨hmem, by decide, ?_⟩
  exact listAssets_tag_intersection "A" c2params c2db (by decide) (by decide)
    c2asset1 hmem "t2" (by decide)

/-! ## C1: owner scoping of API operations -/

/-- C1 counterexample: A's PATCH on A's own asset may link B's tag id
(the tag ids in the body are never checked for ownership), after which
A's GET of the asset returns B's tag row — the enrichment join carries no
owner condition, so an API call by A returns a row owned by B. -/
theorem cross_tenant_counterexample :
    ((assetIdGET "A" "a1" (assetIdPATCH "A" "a1" none none (some ["t1"]) 5 c1db).1).map
      (fun x => x.2.map (fun t => t.ownerId))) = some ["B"] ∧
    ¬ ("B" : String) = "A" := by
  refine ⟨by decide, by decide⟩

theorem buildWhere_owner {userId : String} {p : QueryParams} {a : AssetRow}
    (h : buildWhereConditions userId p a = true) : a.ownerId = userId := by
  simp only [buildWhereConditions, Bool.and_eq_true, decide_eq_true_eq] at h
  exact h.1.1.1.1.1.1

theorem mem_listAssetRows {userId : String} {p : QueryParams} {db : DB} {a : AssetRow}
    (ha : a ∈ listAssetRows userId p db) : buildWhereConditions userId p a = true := by
  rw [listAssetRows] at ha
  have ha1 := List.mem_of_mem_take ha
  have ha2 := List.mem_of_mem_drop ha1
  have ha3 := (List.perm_insertionSort
    (fun a b : AssetRow => b.createdAt ≤ a.createdAt) _).mem_iff.mp ha2
  by_cases hempty : p.tagIds.isEmpty = true
  · rw [if_pos hempty] at ha3
    exact (List.mem_filter.mp ha3).2
  · rw [if_neg hempty] at ha3
    exact (List.mem_filter.mp (List.mem_filter.mp ha3).1).2

theorem othersBy_updWhere {α : Type} (owner : α → String) (u : String)
    (P : α → Prop) [DecidablePred P] (f : α → α) (l : List α)
    (hP : ∀ a ∈ l, P a → owner a = u) (hf : ∀ a ∈ l, owner (f a) = owner a) :
    othersBy owner u (updWhere P f l) = othersBy owner u l := by
  apply filter_updWhere
  · intro a ha hPa
    simp [hP a ha hPa]
  · intro a ha hPa
    simp [hf a ha, hP a ha hPa]

theorem othersBy_delWhere {α : Type} (owner : α → String) (u : String)
    (P : α → Prop) [DecidablePred P] (l : List α)
    (hP : ∀ a ∈ l, P a → owner a = u) :
    othersBy owner u (delWhere P l) = othersBy owner u l := by
  apply filter_delWhere
  intro a ha hPa
  simp [hP a ha hPa]

theorem othersBy_append_own {α : Type} (owner : α → String) (u : String)
    (l : List α) (row : α) (h : owner row = u) :
    othersBy owner u (l ++ [row]) = othersBy owner u l := by
  simp [othersBy, List.filter_append, h]

theorem assetIdPATCH_scoped (u i : String) (notes : Option (Option String))
    (src : Option String) (tagIds : Option (List String)) (now : Int) (db : DB) :
    othersBy AssetRow.ownerId u (assetIdPATCH u i notes src tagIds now db).1.assets =
      othersBy AssetRow.ownerId u db.assets ∧
    (assetIdPATCH u i notes src tagIds now db).1.tags = db.tags ∧
    (assetIdPATCH u i notes src tagIds now db).1.tokens = db.tokens := by
  have hupd := othersBy_updWhere AssetRow.ownerId u
    (fun a => a.id = i ∧ a.ownerId = u) (patchSet notes src now) db.assets
    (fun a _ hPa => hPa.2) (fun a _ => rfl)
  simp only [assetIdPATCH]
  split
  · exact ⟨rfl, rfl, rfl⟩
  · split
    · exact ⟨hupd, rfl, rfl⟩
    · exact ⟨hupd, rfl, rfl⟩

theorem assetIdDELETE_scoped (u i : String) (storageOk : String → String → Bool) (db : DB)
    (hA : (db.assets.map (fun a => a.id)).Nodup) :
    othersBy AssetRow.ownerId u (assetIdDELETE u i storageOk db).1.assets =
      othersBy AssetRow.ownerId u db.assets ∧
    (assetIdDELETE u i storageOk db).1.tags = db.tags ∧
    (assetIdDELETE u i storageOk db).1.tokens = db.tokens := by
  simp only [assetIdDELETE]
  cases hm : (selWhere (fun a => a.id = i ∧ a.ownerId = u) db.assets).head? with
  | none => exact ⟨rfl, rfl, rfl⟩
  | some asset =>
    have hmem := mem_selWhere.mp (head?_some_mem hm)
    refine ⟨?_, rfl, rfl⟩
    apply othersBy_delWhere
    intro a ha hai
    have haeq : a = asset :=
      List.inj_on_of_nodup_map hA ha hmem.1 (by rw [hai, hmem.2.1])
    rw [haeq]
    exact hmem.2.2

theorem finalizeUpload_scoped (u : String) (bw : FinalizeUploadRequest) (now : Int) (db : DB) :
    othersBy AssetRow.ownerId u (finalizeUploadPOST u bw now db).1.assets =
      othersBy AssetRow.ownerId u db.assets ∧
    (finalizeUploadPOST u bw now db).1.tags = db.tags ∧
    (finalizeUploadPOST u bw now db).1.tokens = db.tokens := by
  have hupd := othersBy_updWhere AssetRow.ownerId u
    (fun a => a.id = bw.assetId ∧ a.ownerId = u) (finalizeSetWeb bw now) db.assets
    (fun a _ hPa => hPa.2) (fun a _ => rfl)
  simp only [finalizeUploadPOST]
  split
  · exact ⟨rfl, rfl, rfl⟩
  · split
    · exact ⟨rfl, rfl, rfl⟩
    · exact ⟨hupd, rfl, rfl⟩

theorem extFinalize_scoped (u : String) (be : ExtFinalizeRequest) (now : Int) (db : DB) :
    othersBy AssetRow.ownerId u (extFinalizePOST u be now db).1.assets =
      othersBy AssetRow.ownerId u db.assets ∧
    (extFinalizePOST u be now db).1.tags = db.tags ∧
    (extFinalizePOST u be now db).1.tokens = db.tokens := by
  have hupd := othersBy_updWhere AssetRow.ownerId u
    (fun a => a.id = be.assetId ∧ a.ownerId = u) (finalizeSetExt be now) db.assets
    (fun a _ hPa => hPa.2) (fun a _ => rfl)
  simp only [extFinalizePOST]
  split
  · exact ⟨rfl, rfl, rfl⟩
  · split
    · exact ⟨rfl, rfl, rfl⟩
    · split
      · split
        · exact ⟨hupd, rfl, rfl⟩
        · exact ⟨hupd, rfl, rfl⟩
      · exact ⟨hupd, rfl, rfl⟩

theorem tagsIdPATCH_scoped (u i : String) (name color : Option String) (db : DB) :
    othersBy TagRow.ownerId u (tagsIdPATCH u i name color db).1.tags =
      othersBy TagRow.ownerId u db.tags ∧
    (tagsIdPATCH u i name color db).1.assets = db.assets ∧
    (tagsIdPATCH u i name color db).1.tokens = db.tokens := by
  have hupd := othersBy_updWhere TagRow.ownerId u
    (fun t => t.id = i ∧ t.ownerId = u) (tagPatchSet name color) db.tags
    (fun t _ hPt => hPt.2) (fun t _ => rfl)
  simp only [tagsIdPATCH]
  split
  · exact ⟨rfl, rfl, rfl⟩
  · split
    · exact ⟨rfl, rfl, rfl⟩
    · exact ⟨hupd, rfl, rfl⟩

theorem tagsIdDELETE_scoped (u i : String) (db : DB)
    (hT : (db.tags.map (fun t => t.id)).Nodup) :
    othersBy TagRow.ownerId u (tagsIdDELETE u i db).1.tags =
      othersBy TagRow.ownerId u db.tags ∧
    (tagsIdDELETE u i db).1.assets = db.assets ∧
    (tagsIdDELETE u i db).1.tokens = db.tokens := by
  simp only [tagsIdDELETE]
  cases hm : (selWhere (fun t => t.id = i ∧ t.ownerId = u) db.tags).head? with
  | none => exact ⟨rfl, rfl, rfl⟩
  | some tag =>
    have hmem := mem_selWhere.mp (head?_some_mem hm)
    refine ⟨?_, rfl, rfl⟩
    apply othersBy_delWhere
    intro t ht hti
    have hteq : t = tag :=
      List.inj_on_of_nodup_map hT ht hmem.1 (by rw [hti, hmem.2.1])
    rw [hteq]
    exact hmem.2.2

theorem tokensIdDELETE_scoped (u i : String) (db : DB) :
    othersBy TokenRow.ownerId u (tokensIdDELETE u i db).1.tokens =
      othersBy TokenRow.ownerId u db.tokens ∧
    (tokensIdDELETE u i db).1.assets = db.assets ∧
    (tokensIdDELETE u i db).1.tags = db.tags := by
  refine ⟨?_, rfl, rfl⟩
  exact othersBy_delWhere _ u _ db.tokens (fun t _ hPt => hPt.2)

theorem assetsGET_owner (u : String) (p : QueryParams) (db : DB) :
    ∀ x ∈ assetsGET u p db, x.1.ownerId = u := by
  intro x hx
  obtain ⟨a, ha, hax⟩ := List.mem_map.mp hx
  rw [← hax]
  exact buildWhere_owner (mem_listAssetRows ha)

theorem assetIdGET_owner (u i : String) (db : DB) :
    ∀ a ts', assetIdGET u i db = some (a, ts') → a.ownerId = u := by
  intro a ts' h
  simp only [assetIdGET] at h
  cases hm : (selWhere (fun a => a.id = i ∧ a.ownerId = u) db.assets).head? with
  | none =>
    rw [hm] at h
    exact absurd h (by simp)
  | some asset =>
    rw [hm] at h
    simp only [Option.some.injEq, Prod.mk.injEq] at h
    rw [← h.1]
    exact (mem_selWhere.mp (head?_some_mem hm)).2.2

theorem tagsPOST_scoped (u : String) (name color : Option String) (newId : String)
    (now : Int) (db : DB) :
    ∀ d r, tagsPOST u name color newId now db = some (d, r) →
      othersBy TagRow.ownerId u d.tags = othersBy TagRow.ownerId u db.tags ∧
      d.assets = db.assets ∧ d.tokens = db.tokens := by
  intro d r h
  simp only [tagsPOST] at h
  cases hn : optTruthy name with
  | none =>
    rw [hn] at h
    exact absurd h (by simp)
  | some n =>
    rw [hn] at h
    simp only [Option.some.injEq, Prod.mk.injEq] at h
    rw [← h.1]
    exact ⟨othersBy_append_own TagRow.ownerId u db.tags _ rfl, rfl, rfl⟩

theorem tokensPOST_scoped (u : String) (name : Option String) (token : String)
    (hashF : String → String) (newId : String) (now : Int) (db : DB) :
    ∀ d tk r, tokensPOST u name token hashF newId now db = some (d, tk, r) →
      othersBy TokenRow.ownerId u d.tokens = othersBy TokenRow.ownerId u db.tokens ∧
      d.assets = db.assets ∧ d.tags = db.tags := by
  intro d tk r h
  simp only [tokensPOST] at h
  cases hn : optTruthy name with
  | none =>
    rw [hn] at h
    exact absurd h (by simp)
  | some n =>
    rw [hn] at h
    simp only [Option.some.injEq, Prod.mk.injEq] at h
    rw [← h.1]
    exact ⟨othersBy_append_own TokenRow.ownerId u db.tokens _ rfl, rfl, rfl⟩

/-- C1 amended: every API read of asset, tag and token rows by direct
owner-scoped selection returns only the caller's rows, and no operation
— asset patch/delete, both finalize routes, tag create/patch/delete,
token create/delete — ever mutates an asset, tag or token row owned by
another user (asset and tag ids being primary-key unique).  What the
original claim overstates is the enrichment join: the tag rows attached
to a returned asset are selected by asset id alone (see the
counterexample), so a cross-owner tag row can be read once a cross-owner
link exists. -/
theorem api_owner_scoping (u i : String) (p : QueryParams) (db : DB)
    (notes : Option (Option String)) (src : Option String) (tagIds : Option (List String))
    (now : Int) (storageOk : String → String → Bool)
    (bw : FinalizeUploadRequest) (be : ExtFinalizeRequest)
    (tname tcolor tokName : Option String)
    (newTagId tokSecret newTokId : String) (hashF : String → String)
    (hA : (db.assets.map (fun a => a.id)).Nodup)
    (hT : (db.tags.map (fun t => t.id)).Nodup) :
    (∀ x ∈ assetsGET u p db, x.1.ownerId = u) ∧
    (∀ a ts', assetIdGET u i db = some (a, ts') → a.ownerId = u) ∧
    (∀ t ∈ tagsGET u db, t.ownerId = u) ∧
    (∀ t ∈ tokensGET u db, t.ownerId = u) ∧
    (othersBy AssetRow.ownerId u (assetIdPATCH u i notes src tagIds now db).1.assets =
       othersBy AssetRow.ownerId u db.assets ∧
     (assetIdPATCH u i notes src tagIds now db).1.tags = db.tags ∧
     (assetIdPATCH u i notes src tagIds now db).1.tokens = db.tokens) ∧
    (othersBy AssetRow.ownerId u (assetIdDELETE u i storageOk db).1.assets =
       othersBy AssetRow.ownerId u db.assets ∧
     (assetIdDELETE u i storageOk db).1.tags = db.tags ∧
     (assetIdDELETE u i storageOk db).1.tokens = db.tokens) ∧
    (othersBy AssetRow.ownerId u (finalizeUploadPOST u bw now db).1.assets =
       othersBy AssetRow.ownerId u db.assets ∧
     (finalizeUploadPOST u bw now db).1.tags = db.tags ∧
     (finalizeUploadPOST u bw now db).1.tokens = db.tokens) ∧
    (othersBy AssetRow.ownerId u (extFinalizePOST u be now db).1.assets =
       othersBy AssetRow.ownerId u db.assets ∧
     (extFinalizePOST u be now db).1.tags = db.tags ∧
     (extFinalizePOST u be now db).1.tokens = db.tokens) ∧
    (∀ d r, tagsPOST u tname tcolor newTagId now db = some (d, r) →
      othersBy TagRow.ownerId u d.tags = othersBy TagRow.ownerId u db.tags ∧
      d.assets = db.assets ∧ d.tokens = db.tokens) ∧
    (othersBy TagRow.ownerId u (tagsIdPATCH u i tname tcolor db).1.tags =
       othersBy TagRow.ownerId u db.tags ∧
     (tagsIdPATCH u i tname tcolor db).1.assets = db.assets ∧
     (tagsIdPATCH u i tname tcolor db).1.tokens = db.tokens) ∧
    (othersBy TagRow.ownerId u (tagsIdDELETE u i db).1.tags =
       othersBy TagRow.ownerId u db.tags ∧
     (tagsIdDELETE u i db).1.assets = db.assets ∧
     (tagsIdDELETE u i db).1.tokens = db.tokens) ∧
    (∀ d tk r, tokensPOST u tokName tokSecret hashF newTokId now db = some (d, tk, r) →
      othersBy TokenRow.ownerId u d.tokens = othersBy TokenRow.ownerId u db.tokens ∧
      d.assets = db.assets ∧ d.tags = db.tags) ∧
    (othersBy TokenRow.ownerId u (tokensIdDELETE u i db).1.tokens =
       othersBy TokenRow.ownerId u db.tokens ∧
     (tokensIdDELETE u i db).1.assets = db.assets ∧
     (tokensIdDELETE u i db).1.tags = db.tags) :=
  ⟨assetsGET_owner u p db,
   assetIdGET_owner u i db,
   fun t ht => (mem_selWhere.mp ht).2,
   fun t ht => (mem_selWhere.mp ht).2,
   assetIdPATCH_scoped u i notes src tagIds now db,
   assetIdDELETE_scoped u i storageOk db hA,
   finalizeUpload_scoped u bw now db,
   extFinalize_scoped u be now db,
   tagsPOST_scoped u tname tcolor newTagId now db,
   tagsIdPATCH_scoped u i tname tcolor db,
   tagsIdDELETE_scoped u i db hT,
   tokensPOST_scoped u tokName tokSecret hashF newTokId now db,
   tokensIdDELETE_scoped u i db⟩

/-- Witness for C1's amended theorem at the concrete two-owner database:
A's patch linking B's tag id mutates no tag row (B's tag table rows are
untouched), and A's listing returns only A's assets. -/
theorem api_owner_scoping_witness :
    ((c1db.assets.map (fun a => a.id)).Nodup ∧ (c1db.tags.map (fun t => t.id)).Nodup) ∧
    (assetIdPATCH "A" "a1" none none (some ["t1"]) 5 c1db).1.tags = c1db.tags ∧
    othersBy AssetRow.ownerId "A" (assetIdDELETE "A" "a1" (fun _ _ => true) c1db).1.assets =
      othersBy AssetRow.ownerId "A" c1db.assets ∧
    (∀ t ∈ tagsGET "A" c1db, t.ownerId = "A") := by
  have h := api_owner_scoping "A" "a1" c2params c1db none none (some ["t1"]) 5
    (fun _ _ => true)
    (mkFinBody "a1" 800 600)
    { assetId := "a1", width := none, height := none, durationSeconds := none,
      sha256 := none, tagIds := none }
    none none none "tnew" "secret" "toknew" (fun s => s)
    (by decide) (by decide)
  exact ⟨⟨by decide, by decide⟩, h.2.2.2.2.1.2.1, h.2.2.2.2.2.1.1, h.2.2.1⟩

end AdStash
